import Mathlib

/-!
Verification of tormsg / onionmsg: room commands, command registry, message
queue, sync client, signed digest and fingerprints.

A shallow embedding of `pkg/types/command_handler.go`, of
`pkg/types/messaging_peer.go` (`RunMessageQueue`, `syncMsgs`, `sendBlobs`,
`expectResponse`, `findMessagesToSync`), of `internal/types/message.go` and of
`internal/types/identity.go`.

Conventions of the embedding:

* a Go `string` and a Go `[]byte` are both a sequence of bytes, `List UInt8`
  (`string(b)` and `[]byte(s)` are identities);
* a Go `map[K]V` is an association list read with `mapGet` (first entry wins);
* a Go `error` is `Option GoString`: `none` is `nil`, `some e` is an error
  whose text is `e`;
* a function that mutates `*Room` in place and returns an `error` becomes a
  function from the room before the call to the room after it plus the error;
* a function that reads and writes a connection becomes a step `ConnM` on the
  frames still to be read and the trace of what has happened.
-/

namespace Tormsg

/-! ## Strings, maps, time -/

/-- Go `string` / `[]byte`: a sequence of bytes. -/
abbrev GoString := List UInt8

/-- The bytes of a string literal of the source (UTF-8). -/
def bytesOf (s : String) : GoString :=
  s.data.flatMap String.utf8EncodeChar

/-- Go `time.Time`, as an instant on an integer time line, counted in
nanoseconds from the Unix epoch. -/
abbrev Time := Int

/-- Go `t.After(u)`: the instant `t` is strictly later than `u`. -/
def Time.After (t u : Time) : Bool := decide (u < t)

/-- Go `t.Before(u)`: the instant `t` is strictly earlier than `u`. -/
def Time.Before (t u : Time) : Bool := decide (t < u)

/-- Go `v, ok := m[k]` on a map held as an association list. -/
def mapGet {κ ν : Type} [DecidableEq κ] : List (κ × ν) → κ → Option ν
  | [], _ => none
  | (k', v) :: rest, k => if k' = k then some v else mapGet rest k

/-- Go `map[string]time.Time`: the sync-time maps. -/
abbrev SyncMap := List (GoString × Time)

/-! ## `strings.Split` and the command constants -/

/-- The scan of `strings.Split`: `skip` bytes of a matched separator are still
to be dropped, `cur` is the token read so far. -/
def splitAux (sep : GoString) : GoString → Nat → GoString → List GoString
  | [], _, cur => [cur]
  | _ :: rest, skip + 1, cur => splitAux sep rest skip cur
  | b :: rest, 0, cur =>
    if sep.isPrefixOf (b :: rest) then cur :: splitAux sep rest (sep.length - 1) []
    else splitAux sep rest 0 (cur ++ [b])

/-- Go `strings.Split(s, sep)` for a non-empty separator: the substrings
between the leftmost non-overlapping occurrences of `sep`, empty ones kept;
the result always has at least one element. -/
def Split (s sep : GoString) : List GoString := splitAux sep s 0 []

/-- `type Command string`. -/
abbrev Command := GoString

def RoomCommandInvite : Command := bytesOf "invite"
def RoomCommandNameRoom : Command := bytesOf "name_room"
def RoomCommandNick : Command := bytesOf "nick"
def RoomCommandPromote : Command := bytesOf "promote"
def RoomCommandRemove : Command := bytesOf "remove"
def RoomCommandAccept : Command := bytesOf "accept"

/-- `CommandDelimiter = " "`. -/
def CommandDelimiter : GoString := bytesOf " "

/-! ## Messages -/

/-- Content types of a message (`ContentTypeText`, `ContentTypeCmd` of the
tests, and the binary type of the data model). -/
inductive ContentType where
  | ContentTypeText
  | ContentTypeCmd
  | ContentTypeBinary
  deriving DecidableEq, Repr

/-- `MessageMeta`: sender fingerprint and time. -/
structure MessageMeta where
  Sender : GoString
  Time : Time
  deriving DecidableEq, Repr

/-- `MessageContent`: type tag (`Type` in the source) and payload. -/
structure MessageContent where
  Typ : ContentType
  Data : GoString
  deriving DecidableEq, Repr

/-- `Message` of `pkg/types`, as built in `command_handler_test.go`. -/
structure Message where
  Meta : MessageMeta
  Content : MessageContent
  Sig : GoString
  deriving DecidableEq, Repr

/-- Modelled from the spec: `Message.isCommand` is not part of the sources.
"dispatch parses the first whitespace-delimited token ... errors if the
message is not of command-type": the flag says whether the message is of
command type, the string is the first delimiter-separated token of the
content. -/
def Message.isCommand (m : Message) : Bool × GoString :=
  if m.Content.Typ ≠ ContentType.ContentTypeCmd then (false, [])
  else (true, (Split m.Content.Data CommandDelimiter).headD [])

/-! ## Rooms -/

/-- Modelled from the spec: the `meta{nick, admin}` record of a member. -/
structure PeerMeta where
  Nick : GoString
  Admin : Bool
  deriving DecidableEq, Repr

/-- Modelled from the spec: a remote identity (public key and service
descriptor) is named by its fingerprint, the only part of it the commands
read; the type is not part of the sources. -/
structure RemoteIdentity where
  Fingerprint : GoString
  deriving DecidableEq, Repr

/-- Modelled from the spec: the local identity `self` of a room, with its
fingerprint and its `meta`; the type is not part of the sources. -/
structure SelfIdentity where
  Fingerprint : GoString
  Meta : PeerMeta
  deriving DecidableEq, Repr

/-- `MessagingPeer`: the remote identity, the `Meta` record the command
handlers read and write, the last sync state, and `QueueRunning` for the
queue handle (`ctx`, `stop`): whether `RunMessageQueue` has been launched for
this peer and not been cancelled. -/
structure MessagingPeer where
  RIdentity : RemoteIdentity
  Meta : PeerMeta
  LastSyncState : SyncMap
  QueueRunning : Bool
  deriving DecidableEq, Repr

/-- `NewMessagingPeer`: only the identity is set, the rest is zero. -/
def NewMessagingPeer (rid : RemoteIdentity) : MessagingPeer :=
  { RIdentity := rid, Meta := { Nick := [], Admin := false }, LastSyncState := [],
    QueueRunning := false }

/-- Modelled from the spec: `Room` is not part of the sources. Its fields are
those of the data model (`id`, `name`, `self`, `peers`, `messages`,
`sync-state`); `Deleted` records that `daemon.DeleteRoom` has removed the room
from the daemon. -/
structure Room where
  ID : List UInt8
  Name : GoString
  Self : SelfIdentity
  Peers : List MessagingPeer
  Messages : List Message
  SyncState : SyncMap
  Deleted : Bool
  deriving DecidableEq, Repr

/-- Modelled from the spec: `Room.PeerByFingerprint` is not part of the
sources; peers are keyed by fingerprint, the peer found is the first one of
`Peers` with the given fingerprint. -/
def Room.PeerByFingerprint (room : Room) (fingerprint : GoString) : Option MessagingPeer :=
  room.Peers.find? (fun p => decide (p.RIdentity.Fingerprint = fingerprint))

/-- A write through the pointer `PeerByFingerprint` returned: `f` is applied to
the first peer with the given fingerprint, the others are left as they are. -/
def updatePeer (fingerprint : GoString) (f : MessagingPeer → MessagingPeer) :
    List MessagingPeer → List MessagingPeer
  | [] => []
  | p :: rest =>
    if p.RIdentity.Fingerprint = fingerprint then f p :: rest
    else p :: updatePeer fingerprint f rest

/-- Modelled from the spec: `Room.isSelf` is not part of the sources; "the
argument equals `self.fingerprint`". -/
def Room.isSelf (room : Room) (fingerprint : GoString) : Bool :=
  decide (fingerprint = room.Self.Fingerprint)

/-- Modelled from the spec: `Room.StopQueues` is not part of the sources;
"cancels every outbound queue; the room becomes inert but its state remains
readable". -/
def Room.StopQueues (room : Room) : Room :=
  { room with Peers := room.Peers.map (fun p => { p with QueueRunning := false }) }

/-- Modelled from the spec: `Room.removePeer` is not part of the sources;
"cancels the queue and removes the record. No-op if not present." -/
def Room.removePeer (fingerprint : GoString) (room : Room) : Room × Option GoString :=
  ({ room with
      Peers := room.Peers.filter (fun p => decide (p.RIdentity.Fingerprint ≠ fingerprint)) },
    none)

/-- The collaborators of the command handlers that are not part of the
sources: `NewIdentity(Remote, fingerprint)`, `Room.StopQueues`,
`daemon.DeleteRoom` (acting on the room it is given the id of) and
`Room.removePeer`. The handlers are embedded for arbitrary collaborators. -/
structure Env where
  NewIdentity : GoString → Except GoString RemoteIdentity
  StopQueues : Room → Room
  DeleteRoom : Room → Room × Option GoString
  removePeer : GoString → Room → Room × Option GoString

/-- Modelled from the spec: the collaborators as the spec describes them. A
fingerprint always parses to the identity it names, deleting a room marks it
deleted and cannot fail. -/
def specEnv : Env where
  NewIdentity := fun fingerprint => .ok { Fingerprint := fingerprint }
  StopQueues := Room.StopQueues
  DeleteRoom := fun room => ({ room with Deleted := true }, none)
  removePeer := Room.removePeer

/-! ## The command registry -/

/-- `func(Command, *Message, *Room) error`, for a state `σ` that holds
everything the callback can write (the room for the room commands, the
captured counter for the closures of the tests). -/
abbrev Callback (σ : Type) := Command → Message → σ → σ × Option GoString

/-- The type of `commandCallbacks`, `map[Command]func(...) error`. -/
abbrev Registry (σ : Type) := List (Command × Callback σ)

/-- `RegisterCommand`: the new value of `commandCallbacks` and the error. -/
def RegisterCommand {σ : Type} (command : Command) (callback : Callback σ)
    (commandCallbacks : Registry σ) : Registry σ × Option GoString :=
  match mapGet commandCallbacks command with
  | some _ =>
    (commandCallbacks, some (bytesOf "command " ++ command ++ bytesOf " is already registered"))
  | none => ((command, callback) :: commandCallbacks, none)

/-- `HandleCommand`: the value of `commandCallbacks` after the call (the
function only reads it), the state after the call and the error. -/
def HandleCommand {σ : Type} (message : Message) (room : σ)
    (commandCallbacks : Registry σ) : Registry σ × σ × Option GoString :=
  let (hasCommand, command) := message.isCommand
  if !hasCommand then
    (commandCallbacks, room, some (bytesOf "message isn't a command"))
  else
    match mapGet commandCallbacks command with
    | none =>
      (commandCallbacks, room,
        some (bytesOf "command " ++ command ++ bytesOf " is not registered"))
    | some callback => (commandCallbacks, callback command message room)

/-- `CleanCallbacks`: `commandCallbacks` becomes a fresh empty map. -/
def CleanCallbacks {σ : Type} (_commandCallbacks : Registry σ) : Registry σ := []

/-- `ConstructCommand`. -/
def ConstructCommand (message : GoString) (command : Command) : GoString :=
  if command = [] then message
  else if message.length = 0 then command
  else command ++ CommandDelimiter ++ message

/-! ## The room commands -/

def peerNotFoundError (peer : GoString) : GoString :=
  bytesOf "peer " ++ peer ++ bytesOf " not found"

def peerNotAdminError (peer : GoString) : GoString :=
  bytesOf "peer " ++ peer ++ bytesOf " is not an admin"

/-- `enoughArgs` (the log line is left out). -/
def enoughArgs (args : List GoString) (needed : Int) : Bool :=
  if (args.length : Int) < needed then false else true

/-- `parseCommand`. -/
def parseCommand (message : Message) (actualCommand expectedCommand : Command)
    (expectedArgs : Int) : Except GoString (List GoString) :=
  if actualCommand ≠ expectedCommand then
    .error (actualCommand ++ bytesOf " is the wrong command")
  else
    let args := Split message.Content.Data CommandDelimiter
    if !enoughArgs args expectedArgs then
      .error (actualCommand ++ bytesOf " doesn't have enough arguments")
    else .ok (Split message.Content.Data CommandDelimiter)

/-- The index expression `args[1]`; every use follows a successful
`parseCommand` with `expectedArgs = 2`, so the index is in range. -/
def arg1 (args : List GoString) : GoString := args.getD 1 []

/-- `inviteCallback`. The goroutine started for the new peer is recorded in
its `QueueRunning`. -/
def inviteCallback (env : Env) : Callback Room := fun command message room =>
  match parseCommand message command RoomCommandInvite 2 with
  | .error err => (room, some err)
  | .ok args =>
    if (room.PeerByFingerprint (arg1 args)).isSome || arg1 args == room.Self.Fingerprint then
      (room, some (bytesOf "user " ++ arg1 args ++ bytesOf " already added, or self"))
    else
      match env.NewIdentity (arg1 args) with
      | .error err => (room, some err)
      | .ok peerID =>
        let newPeer := NewMessagingPeer peerID
        ({ room with Peers := room.Peers ++ [{ newPeer with QueueRunning := true }] }, none)

/-- `nameRoomCallback`. -/
def nameRoomCallback : Callback Room := fun command message room =>
  match parseCommand message command RoomCommandNameRoom 2 with
  | .error err => (room, some err)
  | .ok args => ({ room with Name := arg1 args }, none)

/-- `nickCallback`. -/
def nickCallback : Callback Room := fun command message room =>
  match parseCommand message command RoomCommandNick 2 with
  | .error err => (room, some err)
  | .ok args =>
    let sender := message.Meta.Sender
    match room.PeerByFingerprint sender with
    | none => (room, some (peerNotFoundError sender))
    | some _ =>
      let nickname := arg1 args
      ({ room with
          Peers := updatePeer sender
            (fun p => { p with Meta := { p.Meta with Nick := nickname } }) room.Peers },
        none)

/-- `promoteCallback`. -/
def promoteCallback : Callback Room := fun command message room =>
  match parseCommand message command RoomCommandPromote 2 with
  | .error err => (room, some err)
  | .ok args =>
    match room.PeerByFingerprint message.Meta.Sender with
    | none => (room, some (peerNotFoundError message.Meta.Sender))
    | some sender =>
      if !sender.Meta.Admin then (room, some (peerNotAdminError message.Meta.Sender))
      else
        match room.PeerByFingerprint (arg1 args) with
        | some _ =>
          ({ room with
              Peers := updatePeer (arg1 args)
                (fun p => { p with Meta := { p.Meta with Admin := true } }) room.Peers },
            none)
        | none =>
          if room.isSelf (arg1 args) then
            ({ room with Self := { room.Self with Meta := { room.Self.Meta with Admin := true } } },
              none)
          else (room, some (peerNotFoundError (arg1 args)))

/-- `removeCallback`. -/
def removeCallback (env : Env) : Callback Room := fun command message room =>
  match parseCommand message command RoomCommandRemove 2 with
  | .error err => (room, some err)
  | .ok args =>
    match room.PeerByFingerprint message.Meta.Sender with
    | none => (room, some (peerNotFoundError message.Meta.Sender))
    | some sender =>
      if !sender.Meta.Admin then (room, some (peerNotAdminError message.Meta.Sender))
      else if room.isSelf (arg1 args) then
        match env.DeleteRoom (env.StopQueues room) with
        | (room1, some err) => (room1, some err)
        | (room1, none) => env.removePeer (arg1 args) room1
      else env.removePeer (arg1 args) room

/-- `RegisterRoomCommands`: the five registrations in order, stopping at the
first error. -/
def RegisterRoomCommands (env : Env) (commandCallbacks : Registry Room) :
    Registry Room × Option GoString :=
  match RegisterCommand RoomCommandInvite (inviteCallback env) commandCallbacks with
  | (r1, some err) => (r1, some err)
  | (r1, none) =>
    match RegisterCommand RoomCommandNameRoom nameRoomCallback r1 with
    | (r2, some err) => (r2, some err)
    | (r2, none) =>
      match RegisterCommand RoomCommandNick nickCallback r2 with
      | (r3, some err) => (r3, some err)
      | (r3, none) =>
        match RegisterCommand RoomCommandPromote promoteCallback r3 with
        | (r4, some err) => (r4, some err)
        | (r4, none) =>
          match RegisterCommand RoomCommandRemove (removeCallback env) r4 with
          | (r5, some err) => (r5, some err)
          | (r5, none) => (r5, none)

/-! ## Invocation log -/

/-- An entry of the invocation log: the name a callback was registered under,
and the command and message it was invoked with. -/
abbrev Invocation := Command × Command × Message

/-- The callback `callback`, registered under `name`, made to append an entry
to a log of invocations each time it runs; otherwise it acts as `callback`. -/
def logged {σ : Type} (name : Command) (callback : Callback σ) :
    Callback (σ × List Invocation) :=
  fun command message s =>
    (((callback command message s.1).1, s.2 ++ [(name, command, message)]),
      (callback command message s.1).2)

/-- A registry with every callback made to log its invocations. -/
def loggedRegistry {σ : Type} (commandCallbacks : Registry σ) :
    Registry (σ × List Invocation) :=
  commandCallbacks.map (fun e => (e.1, logged e.1 e.2))

/-! ## The membership invariant -/

/-- No peer has the fingerprint of `self`, and no two peers share a
fingerprint. -/
def membershipInvariant (room : Room) : Prop :=
  (∀ p ∈ room.Peers, p.RIdentity.Fingerprint ≠ room.Self.Fingerprint) ∧
    (room.Peers.map (fun p => p.RIdentity.Fingerprint)).Nodup

/-! ## The message diff of the sync client -/

/-- `MessagingPeer.findMessagesToSync`, for the room `mp.Room` points to: the
loop over `Room.Messages` appending to `msgs`. -/
def findMessagesToSync (room : Room) (remoteSyncTimes : SyncMap) : List Message :=
  room.Messages.foldl
    (fun msgs msg =>
      match mapGet remoteSyncTimes msg.Meta.Sender with
      | none => msgs ++ [msg]
      | some last => if msg.Meta.Time.After last then msgs ++ [msg] else msgs)
    []

/-- The test of the loop of `findMessagesToSync`, as a predicate. -/
def wantsMessage (remoteSyncTimes : SyncMap) (msg : Message) : Bool :=
  match mapGet remoteSyncTimes msg.Meta.Sender with
  | none => true
  | some last => decide (last < msg.Meta.Time)

/-- The command name `isCommand` reads off a message: the first
delimiter-separated token of its content. -/
def firstToken (message : Message) : Command :=
  (Split message.Content.Data CommandDelimiter).headD []

/-- The closure of the tests: it counts its invocations (`called++`) and
returns `nil`. -/
def countingCallback : Callback Nat := fun _ _ called => (called + 1, none)

/-- What a write to the admin flag of the member named `f` may change of a
peer: nothing but the admin flag, the flag only of a peer named `f`, and it
is never cleared. -/
def promotedFrom (f : GoString) (p p' : MessagingPeer) : Prop :=
  p'.RIdentity = p.RIdentity ∧ p'.Meta.Nick = p.Meta.Nick ∧
    p'.LastSyncState = p.LastSyncState ∧ p'.QueueRunning = p.QueueRunning ∧
    (p.RIdentity.Fingerprint ≠ f → p'.Meta.Admin = p.Meta.Admin) ∧
    (p.Meta.Admin = true → p'.Meta.Admin = true)

/-- What a write to the nick of the peer named `sender` may change of a peer:
nothing but the nick, and the nick only of a peer named `sender`. -/
def renamedFrom (sender : GoString) (p p' : MessagingPeer) : Prop :=
  p'.RIdentity = p.RIdentity ∧ p'.Meta.Admin = p.Meta.Admin ∧
    p'.LastSyncState = p.LastSyncState ∧ p'.QueueRunning = p.QueueRunning ∧
    (p.RIdentity.Fingerprint ≠ sender → p'.Meta.Nick = p.Meta.Nick)

/-! ## The message queue loop -/

/-- Modelled from the spec: `CopySyncMap` is not part of the sources; "a
snapshot of the room's current sync-state". The copy of a map value is the
value. -/
def CopySyncMap (m : SyncMap) : SyncMap := m

/-- The caught-up test of `RunMessageQueue`: the value of `match` after the
`range` loop over `mp.Room.SyncState`. -/
def syncStateMatch (roomSyncState lastSyncState : SyncMap) : Bool :=
  roomSyncState.foldl
    (fun m kv =>
      match mapGet lastSyncState kv.1 with
      | none => false
      | some t => if t.Before kv.2 then false else m)
    true

/-- One pass through the `default` branch of the loop of `RunMessageQueue`
(the context is not cancelled), for the room `mp.Room` was set to. `syncMsgs`
gives the error of the sync attempt. The result is the peer after the pass
and whether `syncMsgs` was called. -/
def RunMessageQueueIteration (syncMsgs : MessagingPeer → Room → Option GoString)
    (room : Room) (mp : MessagingPeer) : MessagingPeer × Bool :=
  if syncStateMatch room.SyncState mp.LastSyncState then (mp, false)
  else
    match syncMsgs mp room with
    | some _ => (mp, true)
    | none => ({ mp with LastSyncState := CopySyncMap room.SyncState }, true)

/-- A Go map holds one entry per key. -/
def uniqueKeys (m : SyncMap) : Prop := (m.map Prod.fst).Nodup

/-! ## `internal/types`: signed messages and identities -/

/-- Go conversion of an integer to `int64`: the value wrapped into
`[-2^63, 2^63)`. -/
def toInt64 (i : Int) : Int := (i + 2 ^ 63) % 2 ^ 64 - 2 ^ 63

/-- Go `t.Unix()`: the whole seconds from the epoch to `t`, an `int64`. -/
def Time.Unix (t : Time) : Int := toInt64 (t / 1000000000)

/-- Go `uint64(i)` for an `int64` `i`: the value modulo `2^64`. -/
def toUint64 (i : Int) : Nat := (i % 2 ^ 64).toNat

/-- Go `binary.LittleEndian.PutUint64(bs, v)` on a fresh 8-byte slice:
`bs[k] = byte(v >> (8 * k))`. -/
def PutUint64 (v : Nat) : List UInt8 :=
  [UInt8.ofNat v, UInt8.ofNat (v >>> 8), UInt8.ofNat (v >>> 16), UInt8.ofNat (v >>> 24),
    UInt8.ofNat (v >>> 32), UInt8.ofNat (v >>> 40), UInt8.ofNat (v >>> 48),
    UInt8.ofNat (v >>> 56)]

/-- The value of a byte string read as a little-endian number. -/
def littleEndianValue : List UInt8 → Nat
  | [] => 0
  | b :: rest => b.toNat + 256 * littleEndianValue rest

/-- The integer a 64-bit pattern stands for in two's complement. -/
def twosComplement64 (v : Nat) : Int := if v < 2 ^ 63 then (v : Int) else (v : Int) - 2 ^ 64

/-- The characters of `base64.RawURLEncoding`, in the order of their
values. -/
def encodeURL : GoString :=
  bytesOf "ABCDEFGHIJKLMNOPQRSTUVWXYZabcdefghijklmnopqrstuvwxyz0123456789-_"

/-- The character for the 6-bit value `i`. -/
def encodeChar (i : Nat) : UInt8 := encodeURL.getD i 0

/-- The 6-bit values `base64` cuts a byte string into: four for each 3 bytes
(`val = a << 16 | b << 8 | c`, then `val >> 18`, `val >> 12`, `val >> 6`,
`val`, each masked with `0x3F`), two for a last single byte and three for
a last pair, without padding. -/
def sextets : List UInt8 → List Nat
  | [] => []
  | [a] => [a.toNat * 65536 / 262144 % 64, a.toNat * 65536 / 4096 % 64]
  | [a, b] =>
    [(a.toNat * 65536 + b.toNat * 256) / 262144 % 64,
      (a.toNat * 65536 + b.toNat * 256) / 4096 % 64,
      (a.toNat * 65536 + b.toNat * 256) / 64 % 64]
  | a :: b :: c :: rest =>
    (a.toNat * 65536 + b.toNat * 256 + c.toNat) / 262144 % 64
      :: (a.toNat * 65536 + b.toNat * 256 + c.toNat) / 4096 % 64
      :: (a.toNat * 65536 + b.toNat * 256 + c.toNat) / 64 % 64
      :: (a.toNat * 65536 + b.toNat * 256 + c.toNat) % 64
      :: sextets rest

/-- Go `base64.RawURLEncoding.EncodeToString`. -/
def EncodeToString (src : List UInt8) : GoString := (sextets src).map encodeChar

namespace Internal

def MTYPE_TEXT : UInt8 := 0x00
def MTYPE_CMD : UInt8 := 0x01
def MTYPE_BIN : UInt8 := 0x02

/-- `Message` of `internal/types` (`Type` is `Typ`; a `nil` signature is
`none`). -/
structure Message where
  Sender : GoString
  Time : Time
  Typ : UInt8
  Content : GoString
  Signature : Option GoString
  deriving DecidableEq, Repr

/-- `int64ToBytes`. -/
def int64ToBytes (i : Int) : List UInt8 := PutUint64 (toUint64 i)

/-- `Message.digestBytes`. -/
def Message.digestBytes (m : Message) : List UInt8 :=
  let d := m.Sender
  let d := d ++ int64ToBytes m.Time.Unix
  let d := d ++ [m.Typ]
  let d := d ++ m.Content
  d

/-- The functions `ed25519.Sign(priv, message)` and
`ed25519.Verify(pub, message, sig)` of the library. -/
structure Ed25519 where
  Sign : GoString → List UInt8 → GoString
  Verify : GoString → List UInt8 → GoString → Bool

/-- `Message.Sign`. -/
def Message.Sign (ed : Ed25519) (m : Message) (priv : GoString) : Message :=
  { m with Signature := some (ed.Sign priv m.digestBytes) }

/-- `Message.Verify`. -/
def Message.Verify (ed : Ed25519) (m : Message) (pub : GoString) : Bool :=
  match m.Signature with
  | none => false
  | some sig => ed.Verify pub m.digestBytes sig

/-- `Identity` of `internal/types`; `ServiceID` stands for
`Service.Onion().ServiceID`. -/
structure Identity where
  ServiceID : GoString
  Pub : List UInt8
  Priv : List UInt8
  deriving DecidableEq, Repr

/-- `Identity.B64PubKey`. -/
def Identity.B64PubKey (i : Identity) : GoString := EncodeToString i.Pub

/-- `Identity.Fingerprint`. -/
def Identity.Fingerprint (i : Identity) : GoString :=
  i.B64PubKey ++ bytesOf "@" ++ i.ServiceID

end Internal

/-! ## The sync client -/

/-- `uuid.UUID`. -/
abbrev UUID := List UInt8

/-- What the client writes to a connection. -/
inductive Sent where
  | Bytes (b : GoString)
  | Str (s : GoString)
  | Int (n : Int)
  | Messages (msgs : List Message)
  | BlobIDs (ids : List UUID)
  deriving DecidableEq, Repr

/-- What happens on a connection, in order: a write, a frame read as bytes or
as a struct, a string read by `expectResponse` (with the string it
expected), a read that failed. -/
inductive Event where
  | wrote (s : Sent)
  | readBytes (b : GoString)
  | readStruct (b : GoString)
  | reply (expResp resp : GoString)
  | readFailed
  deriving DecidableEq, Repr

/-- Modelled from the spec: `connection.ConnWrapper` is not part of the
sources; a framed connection, "length-prefixed read/write of bytes, strings,
integers, and structured values". `incoming` holds the frames the server
sends that are not read yet, `trace` what has happened on the connection. -/
structure Conn where
  incoming : List GoString
  trace : List Event
  deriving DecidableEq, Repr

/-- A step on a connection: its result or its error, and the connection
after it. An error ends the function that runs the step (`if err != nil
{ return err }`). -/
def ConnM (α : Type) : Type := Conn → Except GoString α × Conn

/-- The step given by a function. -/
def ConnM.mk {α : Type} (f : Conn → Except GoString α × Conn) : ConnM α := f

/-- The outcome of a step on a connection. -/
def ConnM.run {α : Type} (x : ConnM α) (c : Conn) : Except GoString α × Conn := x c

/-- Sequencing with early return on error. -/
def ConnM.bind {α β : Type} (x : ConnM α) (f : α → ConnM β) : ConnM β :=
  ConnM.mk fun c =>
    match x.run c with
    | (.error e, c') => (.error e, c')
    | (.ok a, c') => (f a).run c'

instance : Monad ConnM where
  pure := fun a => ConnM.mk fun c => (.ok a, c)
  bind := ConnM.bind

/-- A call that does not touch the connection and may fail. -/
def ConnM.lift {α : Type} (r : Except GoString α) : ConnM α := ConnM.mk fun c => (r, c)

/-- A write (`WriteBytes`, `WriteString`, `WriteStruct`) whose error the
source ignores; `Flush` is left out. -/
def Conn.write (s : Sent) : ConnM Unit :=
  ConnM.mk fun c => (.ok (), { c with trace := c.trace ++ [Event.wrote s] })

/-- A read of the next frame; it fails when the server sends no more. -/
def Conn.read (event : GoString → Event) : ConnM GoString :=
  ConnM.mk fun c =>
    match c.incoming with
    | [] => (.error (bytesOf "EOF"), { c with trace := c.trace ++ [Event.readFailed] })
    | f :: rest => (.ok f, { incoming := rest, trace := c.trace ++ [event f] })

/-- `conn.ReadBytes(false)`. -/
def Conn.ReadBytes : ConnM GoString := Conn.read Event.readBytes

/-- `expectResponse`: `conn.ReadString()` and the comparison with the
expected literal. -/
def expectResponse (expResp : GoString) : ConnM Unit := do
  let resp ← Conn.read (Event.reply expResp)
  if resp ≠ expResp then
    ConnM.lift (.error (bytesOf "received response \"" ++ resp ++ bytesOf "\" wanted \""
      ++ expResp ++ bytesOf "\""))
  else pure ()

/-- The collaborators of the sync client that are not part of the sources:
`connection.GetConnFunc` for the address of a peer, `Identity.Sign`, the
decoder behind `conn.ReadStruct(&remoteSyncTimes)`, `Message.ContainsBlob`
and the `BlobUUID` of a message, `blobmngr.StatFromID` (the size) and
`blobmngr.FileFromID` (the file, as the bytes left to read), the error of
`conn.WriteInt`, and the constant `blocksize`. -/
structure SyncEnv where
  GetConnFunc : MessagingPeer → Except GoString Conn
  Sign : SelfIdentity → GoString → GoString
  decodeSyncTimes : GoString → Except GoString SyncMap
  ContainsBlob : Message → Bool
  BlobUUID : Message → UUID
  StatFromID : UUID → Except GoString Int
  FileFromID : UUID → Except GoString GoString
  WriteIntErr : Int → Option GoString
  blocksize : Int

/-- `conn.ReadStruct(&remoteSyncTimes, false)`. -/
def Conn.ReadStruct (env : SyncEnv) : ConnM SyncMap := do
  let frame ← Conn.read Event.readStruct
  ConnM.lift (env.decodeSyncTimes frame)

/-- `conn.WriteInt(n)`, whose error the source checks. -/
def Conn.WriteInt (env : SyncEnv) (n : Int) : ConnM Unit := do
  Conn.write (Sent.Int n)
  match env.WriteIntErr n with
  | some err => ConnM.lift (.error err)
  | none => pure ()

/-- `file.Read(buf)` with a buffer of `blocksize` bytes on a file with the
bytes `file` left: the block read and the bytes left after it; end of file
is an error. -/
def fileRead (blocksize : Int) (file : GoString) : Except GoString (GoString × GoString) :=
  if blocksize.toNat = 0 then .ok ([], file)
  else if file = [] then .error (bytesOf "EOF")
  else .ok (file.take blocksize.toNat, file.drop blocksize.toNat)

/-- The block count of `sendBlobs`: `int(stat.Size() / blocksize)`, one more
if `stat.Size() % blocksize != 0`; Go's `/` and `%` truncate towards zero. -/
def blockCount (size blocksize : Int) : Int :=
  if Int.tmod size blocksize ≠ 0 then Int.tdiv size blocksize + 1
  else Int.tdiv size blocksize

/-- The inner loop of `sendBlobs`, `for c := 0; c < blockCount; c++`, with
`count` passes left. -/
def sendBlocks (env : SyncEnv) : Nat → GoString → ConnM Unit
  | 0, _ => pure ()
  | count + 1, file => do
    let (block, rest) ← ConnM.lift (fileRead env.blocksize file)
    Conn.write (Sent.Bytes block)
    expectResponse (bytesOf "block_ok")
    sendBlocks env count rest

/-- The body of the outer loop of `sendBlobs` for one id. -/
def sendBlob (env : SyncEnv) (id : UUID) : ConnM Unit := do
  let size ← ConnM.lift (env.StatFromID id)
  let blockCount := blockCount size env.blocksize
  Conn.WriteInt env blockCount
  let file ← ConnM.lift (env.FileFromID id)
  sendBlocks env blockCount.toNat file
  expectResponse (bytesOf "blob_ok")

/-- The outer loop of `sendBlobs`, `for _, id := range ids`. -/
def sendBlobsLoop (env : SyncEnv) : List UUID → ConnM Unit
  | [] => pure ()
  | id :: ids => do
    sendBlob env id
    sendBlobsLoop env ids

/-- `sendBlobs`. -/
def sendBlobs (env : SyncEnv) (ids : List UUID) : ConnM Unit := do
  Conn.write (Sent.BlobIDs ids)
  sendBlobsLoop env ids

/-- `blobIDsFromMessages`. -/
def blobIDsFromMessages (env : SyncEnv) (msgs : List Message) : List UUID :=
  msgs.foldl (fun ids msg => if env.ContainsBlob msg then ids ++ [env.BlobUUID msg] else ids) []

/-- `fingerprintChallenge`. -/
def fingerprintChallenge (env : SyncEnv) (id : SelfIdentity) : ConnM Unit := do
  let challenge ← Conn.ReadBytes
  Conn.write (Sent.Str id.Fingerprint)
  Conn.write (Sent.Bytes (env.Sign id challenge))

/-- The part of `syncMsgs` that runs on the open connection. -/
def syncOnConn (env : SyncEnv) (room : Room) : ConnM Unit := do
  fingerprintChallenge env room.Self
  Conn.write (Sent.Bytes room.ID)
  expectResponse (bytesOf "auth_ok")
  let remoteSyncTimes ← Conn.ReadStruct env
  let msgsToSync := findMessagesToSync room remoteSyncTimes
  Conn.write (Sent.Messages msgsToSync)
  expectResponse (bytesOf "messages_ok")
  let blobIDs := blobIDsFromMessages env msgsToSync
  sendBlobs env blobIDs
  expectResponse (bytesOf "sync_ok")

/-- `MessagingPeer.syncMsgs`, for `mp.Room` being `mpRoom` (`none` is `nil`):
the error returned and the connection at the end (an untouched empty one
when none was opened). -/
def syncMsgs (env : SyncEnv) (mp : MessagingPeer) (mpRoom : Option Room) :
    Option GoString × Conn :=
  match mpRoom with
  | none => (some (bytesOf "Room not set"), { incoming := [], trace := [] })
  | some room =>
    match env.GetConnFunc mp with
    | .error err => (some err, { incoming := [], trace := [] })
    | .ok conn =>
      match (syncOnConn env room).run conn with
      | (.error err, conn') => (some err, conn')
      | (.ok _, conn') => (none, conn')

/-- The strings `expectResponse` read, in order. -/
def repliesOf (trace : List Event) : List GoString :=
  trace.filterMap fun e =>
    match e with
    | Event.reply _ resp => some resp
    | _ => none

/-- The acknowledgements of one blob: `block_ok` once per block, then
`blob_ok`. -/
def blobAcks (env : SyncEnv) (id : UUID) : List GoString :=
  match env.StatFromID id with
  | .ok size =>
    List.replicate (blockCount size env.blocksize).toNat (bytesOf "block_ok")
      ++ [bytesOf "blob_ok"]
  | .error _ => []

/-- An event that ends the sync: a failed read, or a reply that is not the
expected literal. -/
def Event.failing : Event → Bool
  | Event.readFailed => true
  | Event.reply expResp resp => decide (resp ≠ expResp)
  | _ => false

/-- A step stops at a failure: it only appends to the trace, no event it
appends but the last is a failing one, and none at all when the step
succeeds. -/
def stopsAtFailure {α : Type} (x : ConnM α) : Prop :=
  ∀ c, ∃ added, (x.run c).2.trace = c.trace ++ added
    ∧ (∀ a, (x.run c).1 = .ok a → ∀ e ∈ added, Event.failing e = false)
    ∧ ∀ e ∈ added.dropLast, Event.failing e = false

/-! ## Example data -/

/-- A peer with the given fingerprint and admin flag. -/
def examplePeer (fingerprint : String) (admin : Bool) : MessagingPeer :=
  { RIdentity := { Fingerprint := bytesOf fingerprint },
    Meta := { Nick := [], Admin := admin }, LastSyncState := [], QueueRunning := true }

/-- A command message with the given sender and content. -/
def exampleCommand (sender content : String) : Message :=
  { Meta := { Sender := bytesOf sender, Time := 0 },
    Content := { Typ := ContentType.ContentTypeCmd, Data := bytesOf content }, Sig := [] }

/-- A text message with the given sender, time and content. -/
def exampleText (sender : String) (time : Time) (content : String) : Message :=
  { Meta := { Sender := bytesOf sender, Time := time },
    Content := { Typ := ContentType.ContentTypeText, Data := bytesOf content }, Sig := [] }

/-- A room of `me` (an admin) with the peers `alice` (an admin) and `bob`. -/
def exampleRoom : Room :=
  { ID := [], Name := bytesOf "room",
    Self := { Fingerprint := bytesOf "me", Meta := { Nick := [], Admin := true } },
    Peers := [examplePeer "alice" true, examplePeer "bob" false],
    Messages := [exampleText "alice" 5 "a", exampleText "bob" 7 "b", exampleText "alice" 9 "c",
      exampleText "carol" 1 "d"],
    SyncState := [], Deleted := false }

/-- The example room with the sync state of its messages. -/
def exampleSyncRoom : Room :=
  { exampleRoom with
    SyncState := [(bytesOf "alice", 9), (bytesOf "bob", 7), (bytesOf "carol", 1)] }

/-- A blob store with the one blob `[7]`, of 5 bytes, a block size of 2, and
every message of `alice` holding that blob; the server of `GetConnFunc`
sends the given frames. -/
def exampleSyncEnv (frames : List GoString) : SyncEnv where
  GetConnFunc := fun _ => .ok { incoming := frames, trace := [] }
  Sign := fun _ challenge => challenge
  decodeSyncTimes := fun frame => if frame = [] then .ok [] else .error (bytesOf "bad struct")
  ContainsBlob := fun msg => decide (msg.Meta.Sender = bytesOf "alice" ∧ msg.Meta.Time = 9)
  BlobUUID := fun _ => [7]
  StatFromID := fun id => if id = [7] then .ok 5 else .error (bytesOf "no such blob")
  FileFromID := fun id => if id = [7] then .ok [1, 2, 3, 4, 5] else .error (bytesOf "no such blob")
  WriteIntErr := fun _ => none
  blocksize := 2

/-- The frames of a server for the example room and blob store, with the
given answer to the second block. -/
def exampleFrames (secondBlockAck : String) : List GoString :=
  [bytesOf "ch", bytesOf "auth_ok", [], bytesOf "messages_ok", bytesOf "block_ok",
    bytesOf secondBlockAck, bytesOf "block_ok", bytesOf "blob_ok", bytesOf "sync_ok"]

/-! ## Lemmas -/

theorem foldl_append_filter {α : Type} (p : α → Bool) (l : List α) (acc : List α) :
    l.foldl (fun msgs msg => if p msg then msgs ++ [msg] else msgs) acc = acc ++ l.filter p := by
  induction l generalizing acc with
  | nil => simp
  | cons a l ih =>
    simp only [List.foldl_cons, ih, List.filter_cons]
    by_cases h : p a <;> simp [h]

theorem findMessagesToSync_eq_filter (room : Room) (remoteSyncTimes : SyncMap) :
    findMessagesToSync room remoteSyncTimes = room.Messages.filter (wantsMessage remoteSyncTimes) := by
  have h := foldl_append_filter (wantsMessage remoteSyncTimes) room.Messages []
  simp only [List.nil_append] at h
  rw [← h]
  unfold findMessagesToSync
  congr 1
  funext msgs msg
  unfold wantsMessage Time.After
  cases mapGet remoteSyncTimes msg.Meta.Sender <;> simp

/-! ## Theorems -/

/-- C1: `findMessagesToSync` is the room's message list filtered, in order, by
"the remote map has no entry for the sender, or its entry is strictly earlier
than the message's time": it is a sublist of the room's messages, a message
is in it exactly when it is a room message passing the test, and a message
whose time equals the remote entry is not sent. -/
theorem findMessagesToSync_is_client_diff (room : Room) (remoteSyncTimes : SyncMap) :
    findMessagesToSync room remoteSyncTimes
        = room.Messages.filter (fun m =>
            match mapGet remoteSyncTimes m.Meta.Sender with
            | none => true
            | some last => decide (last < m.Meta.Time))
      ∧ List.Sublist (findMessagesToSync room remoteSyncTimes) room.Messages
      ∧ (∀ m, m ∈ findMessagesToSync room remoteSyncTimes ↔
          (m ∈ room.Messages ∧
            (mapGet remoteSyncTimes m.Meta.Sender = none ∨
              ∃ last, mapGet remoteSyncTimes m.Meta.Sender = some last ∧ last < m.Meta.Time)))
      ∧ (∀ m, mapGet remoteSyncTimes m.Meta.Sender = some m.Meta.Time →
          m ∉ findMessagesToSync room remoteSyncTimes) := by
  have hf := findMessagesToSync_eq_filter room remoteSyncTimes
  refine ⟨?_, ?_, ?_, ?_⟩
  · rw [hf]; rfl
  · rw [hf]; exact List.filter_sublist _
  · intro m
    rw [hf, List.mem_filter]
    unfold wantsMessage
    cases h : mapGet remoteSyncTimes m.Meta.Sender <;> simp
  · intro m hm
    rw [hf, List.mem_filter]
    unfold wantsMessage
    simp [hm]

/-- C1, at the example room: of the four messages, the one of `bob` at the
time of the remote entry and the one of `alice` before hers are not sent. -/
theorem findMessagesToSync_is_client_diff_witness :
    exampleText "bob" 7 "b" ∉
        findMessagesToSync exampleRoom [(bytesOf "alice", 5), (bytesOf "bob", 7)]
      ∧ findMessagesToSync exampleRoom [(bytesOf "alice", 5), (bytesOf "bob", 7)]
        = [exampleText "alice" 9 "c", exampleText "carol" 1 "d"] :=
  ⟨(findMessagesToSync_is_client_diff exampleRoom
      [(bytesOf "alice", 5), (bytesOf "bob", 7)]).2.2.2 (exampleText "bob" 7 "b") (by decide),
    by decide⟩

theorem parseCommand_short (message : Message) (actualCommand expectedCommand : Command)
    (h : (Split message.Content.Data CommandDelimiter).length < 2) :
    ∃ err, parseCommand message actualCommand expectedCommand 2 = .error err := by
  unfold parseCommand enoughArgs
  by_cases hc : actualCommand = expectedCommand
  · have h2 : ((Split message.Content.Data CommandDelimiter).length : Int) < 2 := by omega
    simp [hc, h2]
  · simp [hc]

/-- C2: when the sender of the message is not an admin (the peer found for
its fingerprint has the admin flag false, or no peer is found for it),
`promoteCallback` and `removeCallback` return an error and the room after the
call is the room before it, whatever the command and the content are and
whatever `StopQueues`, `DeleteRoom` and `removePeer` do. -/
theorem admin_commands_refuse_non_admin (env : Env) (command : Command) (message : Message)
    (room : Room)
    (h : ∀ p, room.PeerByFingerprint message.Meta.Sender = some p → p.Meta.Admin = false) :
    (∃ err, promoteCallback command message room = (room, some err)) ∧
      (∃ err, removeCallback env command message room = (room, some err)) := by
  constructor
  · unfold promoteCallback
    cases hp : parseCommand message command RoomCommandPromote 2 with
    | error e => exact ⟨e, rfl⟩
    | ok args =>
      cases hs : room.PeerByFingerprint message.Meta.Sender with
      | none => exact ⟨_, rfl⟩
      | some sender => simp [h sender hs]
  · unfold removeCallback
    cases hp : parseCommand message command RoomCommandRemove 2 with
    | error e => exact ⟨e, rfl⟩
    | ok args =>
      cases hs : room.PeerByFingerprint message.Meta.Sender with
      | none => exact ⟨_, rfl⟩
      | some sender => simp [h sender hs]

/-- C2, at the example room: `bob` is a peer without the admin flag; his
`promote bob` and `remove alice` fail with "is not an admin" and change
nothing. -/
theorem admin_commands_refuse_non_admin_witness :
    ((∃ err, promoteCallback RoomCommandRemove (exampleCommand "bob" "remove alice") exampleRoom
        = (exampleRoom, some err)) ∧
      (∃ err, removeCallback specEnv RoomCommandRemove (exampleCommand "bob" "remove alice")
        exampleRoom = (exampleRoom, some err)))
      ∧ promoteCallback RoomCommandPromote (exampleCommand "bob" "promote bob") exampleRoom
        = (exampleRoom, some (bytesOf "peer bob is not an admin"))
      ∧ removeCallback specEnv RoomCommandRemove (exampleCommand "bob" "remove alice") exampleRoom
        = (exampleRoom, some (bytesOf "peer bob is not an admin")) :=
  ⟨admin_commands_refuse_non_admin specEnv RoomCommandRemove
      (exampleCommand "bob" "remove alice") exampleRoom
      (by
        intro p hp
        have hb : exampleRoom.PeerByFingerprint (exampleCommand "bob" "remove alice").Meta.Sender
            = some (examplePeer "bob" false) := by decide
        rw [hb] at hp
        cases hp
        rfl),
    by decide, by decide⟩

/-- C3: when the content of the message splits on the delimiter into fewer
than 2 tokens, each of `inviteCallback`, `nameRoomCallback`, `nickCallback`,
`promoteCallback` and `removeCallback` returns an error and the room after
the call is the room before it. -/
theorem insufficient_tokens_fail_without_mutation (env : Env) (command : Command)
    (message : Message) (room : Room)
    (h : (Split message.Content.Data CommandDelimiter).length < 2) :
    (∃ err, inviteCallback env command message room = (room, some err)) ∧
      (∃ err, nameRoomCallback command message room = (room, some err)) ∧
      (∃ err, nickCallback command message room = (room, some err)) ∧
      (∃ err, promoteCallback command message room = (room, some err)) ∧
      (∃ err, removeCallback env command message room = (room, some err)) := by
  refine ⟨?_, ?_, ?_, ?_, ?_⟩
  · obtain ⟨e, he⟩ := parseCommand_short message command RoomCommandInvite h
    exact ⟨e, by simp [inviteCallback, he]⟩
  · obtain ⟨e, he⟩ := parseCommand_short message command RoomCommandNameRoom h
    exact ⟨e, by simp [nameRoomCallback, he]⟩
  · obtain ⟨e, he⟩ := parseCommand_short message command RoomCommandNick h
    exact ⟨e, by simp [nickCallback, he]⟩
  · obtain ⟨e, he⟩ := parseCommand_short message command RoomCommandPromote h
    exact ⟨e, by simp [promoteCallback, he]⟩
  · obtain ⟨e, he⟩ := parseCommand_short message command RoomCommandRemove h
    exact ⟨e, by simp [removeCallback, he]⟩

/-- C3, at the example room: `alice`, an admin, sends `promote` without an
argument; the handler reports "doesn't have enough arguments". -/
theorem insufficient_tokens_fail_without_mutation_witness :
    (Split (exampleCommand "alice" "promote").Content.Data CommandDelimiter).length < 2
      ∧ (∃ err, promoteCallback RoomCommandPromote (exampleCommand "alice" "promote") exampleRoom
          = (exampleRoom, some err))
      ∧ promoteCallback RoomCommandPromote (exampleCommand "alice" "promote") exampleRoom
          = (exampleRoom, some (bytesOf "promote doesn't have enough arguments")) :=
  ⟨by decide,
    (insufficient_tokens_fail_without_mutation specEnv RoomCommandPromote
      (exampleCommand "alice" "promote") exampleRoom (by decide)).2.2.2.1,
    by decide⟩

theorem mapGet_loggedRegistry {σ : Type} (commandCallbacks : Registry σ) (c : Command) :
    mapGet (loggedRegistry commandCallbacks) c = (mapGet commandCallbacks c).map (logged c) := by
  induction commandCallbacks with
  | nil => rfl
  | cons e rest ih =>
    obtain ⟨k, v⟩ := e
    by_cases hk : k = c
    · simp [loggedRegistry, mapGet, hk]
    · simpa [loggedRegistry, mapGet, hk] using ih

theorem isCommand_of_cmd (message : Message)
    (h : message.Content.Typ = ContentType.ContentTypeCmd) :
    message.isCommand = (true, firstToken message) := by
  simp [Message.isCommand, h, firstToken]

theorem isCommand_of_not_cmd (message : Message)
    (h : message.Content.Typ ≠ ContentType.ContentTypeCmd) :
    message.isCommand = (false, []) := by
  simp [Message.isCommand, h]

theorem HandleCommand_found {σ : Type} (commandCallbacks : Registry σ) (callback : Callback σ)
    (message : Message) (room : σ)
    (htype : message.Content.Typ = ContentType.ContentTypeCmd)
    (hreg : mapGet commandCallbacks (firstToken message) = some callback) :
    HandleCommand message room commandCallbacks
      = (commandCallbacks, callback (firstToken message) message room) := by
  simp [HandleCommand, isCommand_of_cmd message htype, hreg]

theorem HandleCommand_not_found {σ : Type} (commandCallbacks : Registry σ)
    (message : Message) (room : σ)
    (htype : message.Content.Typ = ContentType.ContentTypeCmd)
    (hreg : mapGet commandCallbacks (firstToken message) = none) :
    HandleCommand message room commandCallbacks
      = (commandCallbacks, room,
          some (bytesOf "command " ++ firstToken message ++ bytesOf " is not registered")) := by
  simp [HandleCommand, isCommand_of_cmd message htype, hreg]

theorem HandleCommand_not_cmd {σ : Type} (commandCallbacks : Registry σ)
    (message : Message) (room : σ)
    (htype : message.Content.Typ ≠ ContentType.ContentTypeCmd) :
    HandleCommand message room commandCallbacks
      = (commandCallbacks, room, some (bytesOf "message isn't a command")) := by
  simp [HandleCommand, isCommand_of_not_cmd message htype]

theorem splitAux_no_delimiter (s cur : GoString) (h : ∀ b ∈ s, b ≠ 32) :
    splitAux CommandDelimiter s 0 cur = [cur ++ s] := by
  induction s generalizing cur with
  | nil => simp [splitAux]
  | cons b rest ih =>
    have hb : b ≠ 32 := h b (List.mem_cons_self _ _)
    have hp : CommandDelimiter.isPrefixOf (b :: rest) = false := by
      have hd : CommandDelimiter = [32] := by decide
      rw [hd]
      simp [List.isPrefixOf, Ne.symm hb]
    rw [splitAux, hp]
    simp only [Bool.false_eq_true, if_false]
    rw [ih _ (fun x hx => h x (List.mem_cons_of_mem _ hx))]
    simp

/-- A message whose whole content is a name without the delimiter byte has
that name as its first token. -/
theorem firstToken_whole_content (message : Message)
    (h : ∀ b ∈ message.Content.Data, b ≠ 32) :
    firstToken message = message.Content.Data := by
  unfold firstToken Split
  rw [splitAux_no_delimiter _ _ h]
  simp

/-- C4: when the handler `h` is bound to the name `c`, `HandleCommand` on a
command-type message whose first delimiter-separated token is `c` returns the
result of `h` on `(c, message, room)` and leaves the registry as it is; with
every registered callback made to log its invocations, the log grows by
exactly one entry, the one of `h` invoked with `c` and the message. -/
theorem dispatch_reaches_registered_handler {σ : Type} (commandCallbacks : Registry σ)
    (c : Command) (h : Callback σ) (message : Message) (room : σ)
    (hreg : mapGet commandCallbacks c = some h)
    (htype : message.Content.Typ = ContentType.ContentTypeCmd)
    (htok : (Split message.Content.Data CommandDelimiter).headD [] = c) :
    HandleCommand message room commandCallbacks = (commandCallbacks, h c message room)
      ∧ ∀ log : List Invocation,
          HandleCommand message (room, log) (loggedRegistry commandCallbacks)
            = (loggedRegistry commandCallbacks,
                ((h c message room).1, log ++ [(c, c, message)]), (h c message room).2) := by
  have ht : firstToken message = c := htok
  constructor
  · have := HandleCommand_found commandCallbacks h message room htype (by rw [ht]; exact hreg)
    rw [this, ht]
  · intro log
    have hl : mapGet (loggedRegistry commandCallbacks) (firstToken message)
        = some (logged c h) := by
      rw [ht, mapGet_loggedRegistry, hreg]; rfl
    rw [HandleCommand_found _ _ message (room, log) htype hl, ht]
    rfl

/-- C4, as in `TestRegisterCallback`: after registering the counting closure
under `test-command`, dispatching the command message whose whole content is
`test-command` leaves the counter at 1. -/
theorem dispatch_reaches_registered_handler_witness :
    HandleCommand (exampleCommand "" "test-command") 0
        (RegisterCommand (bytesOf "test-command") countingCallback (CleanCallbacks [])).1
      = ((RegisterCommand (bytesOf "test-command") countingCallback (CleanCallbacks [])).1,
          (1, none)) :=
  (dispatch_reaches_registered_handler
    (RegisterCommand (bytesOf "test-command") countingCallback (CleanCallbacks [])).1
    (bytesOf "test-command") countingCallback (exampleCommand "" "test-command") 0
    (by rfl) (by decide) (by decide)).1

/-- C5: `HandleCommand` on a message that is not of command type returns the
error "message isn't a command", and on a command-type message whose command
name has no registered handler the error "command ... is not registered"; in
both cases the registry and the state are returned as they were, and with
every registered callback made to log its invocations the log is unchanged. -/
theorem dispatch_fails_without_running {σ : Type} (commandCallbacks : Registry σ)
    (message : Message) (room : σ) :
    (message.Content.Typ ≠ ContentType.ContentTypeCmd →
        HandleCommand message room commandCallbacks
            = (commandCallbacks, room, some (bytesOf "message isn't a command"))
          ∧ ∀ log : List Invocation,
              HandleCommand message (room, log) (loggedRegistry commandCallbacks)
                = (loggedRegistry commandCallbacks, (room, log),
                    some (bytesOf "message isn't a command")))
      ∧ (message.Content.Typ = ContentType.ContentTypeCmd →
          mapGet commandCallbacks ((Split message.Content.Data CommandDelimiter).headD []) = none →
          HandleCommand message room commandCallbacks
              = (commandCallbacks, room,
                  some (bytesOf "command "
                    ++ (Split message.Content.Data CommandDelimiter).headD []
                    ++ bytesOf " is not registered"))
            ∧ ∀ log : List Invocation,
                HandleCommand message (room, log) (loggedRegistry commandCallbacks)
                  = (loggedRegistry commandCallbacks, (room, log),
                      some (bytesOf "command "
                        ++ (Split message.Content.Data CommandDelimiter).headD []
                        ++ bytesOf " is not registered"))) := by
  constructor
  · intro htype
    exact ⟨HandleCommand_not_cmd _ _ _ htype, fun log => HandleCommand_not_cmd _ _ _ htype⟩
  · intro htype hreg
    refine ⟨HandleCommand_not_found _ _ _ htype hreg, fun log => ?_⟩
    have hl : mapGet (loggedRegistry commandCallbacks) (firstToken message) = none := by
      rw [mapGet_loggedRegistry]
      unfold firstToken
      rw [hreg]; rfl
    exact HandleCommand_not_found _ _ _ htype hl

/-- C5, as in `TestHandleCallbackNoCommand` and
`TestHandleCallbackCommandNotRegistered`: with the counting closure registered
under `test-command`, a text message `test-command` and a command message
`other` both fail and leave the counter at 0. -/
theorem dispatch_fails_without_running_witness :
    HandleCommand (exampleText "" 0 "test-command") 0 [(bytesOf "test-command", countingCallback)]
        = ([(bytesOf "test-command", countingCallback)], 0,
            some (bytesOf "message isn't a command"))
      ∧ HandleCommand (exampleCommand "" "other") 0 [(bytesOf "test-command", countingCallback)]
        = ([(bytesOf "test-command", countingCallback)], 0,
            some (bytesOf "command other is not registered")) :=
  ⟨((dispatch_fails_without_running [(bytesOf "test-command", countingCallback)]
      (exampleText "" 0 "test-command") 0).1 (by decide)).1,
    ((dispatch_fails_without_running [(bytesOf "test-command", countingCallback)]
      (exampleCommand "" "other") 0).2 (by decide) (by rfl)).1⟩

/-- C6: on a registry without `c`, `RegisterCommand c h1` returns no error,
binds `c` to `h1` and leaves the binding of every other name as it was; a
following `RegisterCommand c h2` returns the error "command c is already
registered" and the registry unchanged, and a dispatch of a command message
with first token `c` after it returns the result of `h1`. -/
theorem registration_is_first_wins {σ : Type} (commandCallbacks : Registry σ)
    (c : Command) (h1 h2 : Callback σ) (hfree : mapGet commandCallbacks c = none) :
    (RegisterCommand c h1 commandCallbacks).2 = none
      ∧ mapGet (RegisterCommand c h1 commandCallbacks).1 c = some h1
      ∧ (∀ c', c' ≠ c →
          mapGet (RegisterCommand c h1 commandCallbacks).1 c' = mapGet commandCallbacks c')
      ∧ RegisterCommand c h2 (RegisterCommand c h1 commandCallbacks).1
          = ((RegisterCommand c h1 commandCallbacks).1,
              some (bytesOf "command " ++ c ++ bytesOf " is already registered"))
      ∧ ∀ (message : Message) (room : σ),
          message.Content.Typ = ContentType.ContentTypeCmd →
          (Split message.Content.Data CommandDelimiter).headD [] = c →
          HandleCommand message room
              (RegisterCommand c h2 (RegisterCommand c h1 commandCallbacks).1).1
            = ((RegisterCommand c h1 commandCallbacks).1, h1 c message room) := by
  have hr1 : RegisterCommand c h1 commandCallbacks = ((c, h1) :: commandCallbacks, none) := by
    simp [RegisterCommand, hfree]
  have hget : mapGet ((c, h1) :: commandCallbacks) c = some h1 := by simp [mapGet]
  have hr2 : RegisterCommand c h2 ((c, h1) :: commandCallbacks)
      = ((c, h1) :: commandCallbacks,
          some (bytesOf "command " ++ c ++ bytesOf " is already registered")) := by
    simp [RegisterCommand, hget]
  rw [hr1]
  refine ⟨rfl, hget, ?_, hr2, ?_⟩
  · intro c' hc'
    simp [mapGet, Ne.symm hc']
  · intro message room htype htok
    rw [hr2]
    have ht : firstToken message = c := htok
    have := HandleCommand_found ((c, h1) :: commandCallbacks) h1 message room htype
      (by rw [ht]; exact hget)
    rw [this, ht]

/-- C6, as in `TestRegisterCallbackError`: on the cleaned registry the first
registration of `test-command` succeeds and the second returns the error. -/
theorem registration_is_first_wins_witness :
    (RegisterCommand (bytesOf "test-command") countingCallback (CleanCallbacks [])).2 = none
      ∧ RegisterCommand (bytesOf "test-command") (fun _ _ called => (called, none))
          (RegisterCommand (bytesOf "test-command") countingCallback (CleanCallbacks [])).1
        = ((RegisterCommand (bytesOf "test-command") countingCallback (CleanCallbacks [])).1,
            some (bytesOf "command test-command is already registered")) :=
  ⟨(registration_is_first_wins (CleanCallbacks []) (bytesOf "test-command") countingCallback
      (fun _ _ called => (called, none)) (by rfl)).1,
    (registration_is_first_wins (CleanCallbacks []) (bytesOf "test-command") countingCallback
      (fun _ _ called => (called, none)) (by rfl)).2.2.2.1⟩

/-- C7: after `CleanCallbacks`, `HandleCommand` on every command-type message
returns the error "command ... is not registered" with the state returned as
it was (also the invocation log, when the callbacks registered before the
clean were logging ones), and `RegisterCommand` of any name returns no error
and binds the name. -/
theorem CleanCallbacks_empties_registry {σ : Type} (commandCallbacks : Registry σ) :
    (∀ (message : Message) (room : σ),
        message.Content.Typ = ContentType.ContentTypeCmd →
        HandleCommand message room (CleanCallbacks commandCallbacks)
          = (CleanCallbacks commandCallbacks, room,
              some (bytesOf "command "
                ++ (Split message.Content.Data CommandDelimiter).headD []
                ++ bytesOf " is not registered")))
      ∧ (∀ (message : Message) (room : σ) (log : List Invocation),
          message.Content.Typ = ContentType.ContentTypeCmd →
          (HandleCommand message (room, log)
              (CleanCallbacks (loggedRegistry commandCallbacks))).2.1 = (room, log))
      ∧ ∀ (c : Command) (h : Callback σ),
          (RegisterCommand c h (CleanCallbacks commandCallbacks)).2 = none
            ∧ mapGet (RegisterCommand c h (CleanCallbacks commandCallbacks)).1 c = some h := by
  refine ⟨?_, ?_, ?_⟩
  · intro message room htype
    exact HandleCommand_not_found (CleanCallbacks commandCallbacks) message room htype rfl
  · intro message room log htype
    rw [HandleCommand_not_found (CleanCallbacks (loggedRegistry commandCallbacks)) message
      (room, log) htype rfl]
  · intro c h
    simp [RegisterCommand, CleanCallbacks, mapGet]

/-- C7, as in `TestCleanCallbacks`: register the counting closure, clean,
dispatch `test-command`: the error is returned and the counter stays 0. -/
theorem CleanCallbacks_empties_registry_witness :
    HandleCommand (exampleCommand "" "test-command") 0
        (CleanCallbacks
          (RegisterCommand (bytesOf "test-command") countingCallback (CleanCallbacks [])).1)
      = ([], 0, some (bytesOf "command test-command is not registered")) :=
  (CleanCallbacks_empties_registry
    (RegisterCommand (bytesOf "test-command") countingCallback (CleanCallbacks [])).1).1
    (exampleCommand "" "test-command") 0 (by decide)

/-- C8: for a non-empty command `c` and a non-empty body `b`,
`ConstructCommand b c` is the bytes of `c`, one space (byte 32), then `b`; for
an empty body it is `c`, for an empty command it is `b`; `hello` with `nick`
gives `nick hello`. -/
theorem ConstructCommand_builds_payload (b : GoString) (c : Command) :
    (c ≠ [] → b ≠ [] → ConstructCommand b c = c ++ [32] ++ b)
      ∧ ConstructCommand [] c = c
      ∧ ConstructCommand b [] = b
      ∧ ConstructCommand (bytesOf "hello") (bytesOf "nick") = bytesOf "nick hello" := by
  refine ⟨?_, ?_, ?_, by decide⟩
  · intro hc hb
    have hd : CommandDelimiter = [32] := by decide
    simp [ConstructCommand, hc, hb, hd]
  · by_cases hc : c = [] <;> simp [ConstructCommand, hc]
  · simp [ConstructCommand]

/-- C8, on the payload of `TestAddCommand`. -/
theorem ConstructCommand_builds_payload_witness :
    ConstructCommand (bytesOf "test-message") (bytesOf "test-command")
      = bytesOf "test-command" ++ [32] ++ bytesOf "test-message" :=
  (ConstructCommand_builds_payload (bytesOf "test-message") (bytesOf "test-command")).1
    (by decide) (by decide)

theorem PeerByFingerprint_eq_none (room : Room) (f : GoString) :
    room.PeerByFingerprint f = none ↔ ∀ p ∈ room.Peers, p.RIdentity.Fingerprint ≠ f := by
  simp [Room.PeerByFingerprint, List.find?_eq_none]

theorem PeerByFingerprint_some_of_mem (room : Room) (f : GoString)
    (h : ∃ p ∈ room.Peers, p.RIdentity.Fingerprint = f) :
    ∃ q, room.PeerByFingerprint f = some q := by
  cases hq : room.PeerByFingerprint f with
  | some q => exact ⟨q, rfl⟩
  | none =>
    obtain ⟨p, hp, hpf⟩ := h
    exact absurd hpf ((PeerByFingerprint_eq_none room f).1 hq p hp)

theorem find_updatePeer (f : GoString) (upd : MessagingPeer → MessagingPeer)
    (hupd : ∀ p, (upd p).RIdentity = p.RIdentity) (peers : List MessagingPeer)
    (q : MessagingPeer)
    (h : peers.find? (fun p => decide (p.RIdentity.Fingerprint = f)) = some q) :
    (updatePeer f upd peers).find? (fun p => decide (p.RIdentity.Fingerprint = f))
      = some (upd q) := by
  induction peers with
  | nil => simp at h
  | cons p rest ih =>
    by_cases hp : p.RIdentity.Fingerprint = f
    · simp [List.find?, hp] at h
      subst h
      simp [updatePeer, hp, List.find?, hupd]
    · simp [List.find?, hp] at h
      simp [updatePeer, hp, List.find?, ih h]

theorem updatePeer_promotedFrom (f : GoString) (peers : List MessagingPeer) :
    List.Forall₂ (promotedFrom f) peers
      (updatePeer f (fun p => { p with Meta := { p.Meta with Admin := true } }) peers) := by
  induction peers with
  | nil => exact List.Forall₂.nil
  | cons p rest ih =>
    by_cases hp : p.RIdentity.Fingerprint = f
    · simp only [updatePeer, hp, if_true]
      refine List.Forall₂.cons ?_ ?_
      · simp [promotedFrom, hp]
      · exact List.forall₂_same.2 (fun x _ => by simp [promotedFrom])
    · simp only [updatePeer, hp, if_false]
      exact List.Forall₂.cons (by simp [promotedFrom]) ih

theorem parseCommand_ok (message : Message) (c : Command)
    (h : 2 ≤ (Split message.Content.Data CommandDelimiter).length) :
    parseCommand message c c 2 = .ok (Split message.Content.Data CommandDelimiter) := by
  unfold parseCommand enoughArgs
  have h2 : ¬ ((Split message.Content.Data CommandDelimiter).length : Int) < 2 := by omega
  simp [h2]

/-- C9, as stated, fails when the sender is the admin `self`: in the example
room `me` is the local identity with the admin flag set and `bob` is a peer,
but `promote bob` sent by `me` returns "peer me not found" and changes
nothing. -/
theorem promote_by_admin_self_is_refused :
    exampleRoom.Self.Meta.Admin = true
      ∧ (exampleCommand "me" "promote bob").Meta.Sender = exampleRoom.Self.Fingerprint
      ∧ exampleRoom.PeerByFingerprint (bytesOf "bob") = some (examplePeer "bob" false)
      ∧ promoteCallback RoomCommandPromote (exampleCommand "me" "promote bob") exampleRoom
          = (exampleRoom, some (bytesOf "peer me not found")) := by
  decide

theorem promoteCallback_admin_peer (command : Command) (message : Message) (room : Room)
    (f : GoString) (sender : MessagingPeer)
    (hcmd : command = RoomCommandPromote)
    (hargs : 2 ≤ (Split message.Content.Data CommandDelimiter).length)
    (hf : (Split message.Content.Data CommandDelimiter).getD 1 [] = f)
    (hs : room.PeerByFingerprint message.Meta.Sender = some sender)
    (hadmin : sender.Meta.Admin = true)
    (hmem : (∃ p ∈ room.Peers, p.RIdentity.Fingerprint = f) ∨ f = room.Self.Fingerprint) :
    (promoteCallback command message room).2 = none
      ∧ ((∃ p ∈ room.Peers, p.RIdentity.Fingerprint = f) →
          (∃ p', (promoteCallback command message room).1.PeerByFingerprint f = some p'
              ∧ p'.Meta.Admin = true)
            ∧ (promoteCallback command message room).1.Self = room.Self)
      ∧ ((∀ p ∈ room.Peers, p.RIdentity.Fingerprint ≠ f) →
          (promoteCallback command message room).1.Self.Meta.Admin = true
            ∧ (promoteCallback command message room).1.Self.Fingerprint = room.Self.Fingerprint
            ∧ (promoteCallback command message room).1.Self.Meta.Nick = room.Self.Meta.Nick
            ∧ (promoteCallback command message room).1.Peers = room.Peers)
      ∧ List.Forall₂ (promotedFrom f) room.Peers (promoteCallback command message room).1.Peers
      ∧ (promoteCallback command message room).1.Name = room.Name
      ∧ (promoteCallback command message room).1.ID = room.ID
      ∧ (promoteCallback command message room).1.Messages = room.Messages
      ∧ (promoteCallback command message room).1.SyncState = room.SyncState
      ∧ (promoteCallback command message room).1.Deleted = room.Deleted := by
  subst hcmd
  have hparse := parseCommand_ok message RoomCommandPromote hargs
  have harg : arg1 (Split message.Content.Data CommandDelimiter) = f := hf
  cases hq : room.PeerByFingerprint f with
  | some q =>
    have hout : promoteCallback RoomCommandPromote message room
        = ({ room with
              Peers := updatePeer f
                (fun p => { p with Meta := { p.Meta with Admin := true } }) room.Peers },
            none) := by
      simp [promoteCallback, hparse, hs, hadmin, harg, hq]
    rw [hout]
    refine ⟨rfl, ?_, ?_, updatePeer_promotedFrom f room.Peers, rfl, rfl, rfl, rfl, rfl⟩
    · intro _
      exact ⟨⟨_, find_updatePeer f
        (fun p => { p with Meta := { p.Meta with Admin := true } }) (fun _ => rfl)
        room.Peers q hq, rfl⟩, rfl⟩
    · intro hno
      rw [(PeerByFingerprint_eq_none room f).2 hno] at hq
      cases hq
  | none =>
    have hno := (PeerByFingerprint_eq_none room f).1 hq
    have hself : f = room.Self.Fingerprint := by
      rcases hmem with ⟨p, hp, hpf⟩ | h
      · exact absurd hpf (hno p hp)
      · exact h
    have hout : promoteCallback RoomCommandPromote message room
        = ({ room with
              Self := { room.Self with Meta := { room.Self.Meta with Admin := true } } },
            none) := by
      rw [hself] at harg hq
      simp [promoteCallback, hparse, hs, hadmin, harg, hq, Room.isSelf]
    rw [hout]
    refine ⟨rfl, ?_, ?_, List.forall₂_same.2 (fun x _ => by simp [promotedFrom]),
      rfl, rfl, rfl, rfl, rfl⟩
    · rintro ⟨p, hp, hpf⟩
      exact absurd hpf (hno p hp)
    · intro _
      exact ⟨rfl, rfl, rfl, rfl⟩

/-- C9, amended: on the `promote` command with second token `f`, a sender for
which no peer is found (the local identity `self` included) gets the error
"peer ... not found" and the room is unchanged. When the sender is found
among the peers with its admin flag set and `f` names a member,
`promoteCallback` returns no error; if `f` names a peer, the peer found for
`f` afterwards has the admin flag set and `self` is unchanged, and otherwise
(`f` is `self`) the admin flag of `self` is set, the rest of `self` and the
peer list are unchanged; in both cases the peers differ from the old ones at
most in the admin flag of a peer named `f`, and name, id, messages, sync
state and deletion mark are unchanged. -/
theorem admin_peer_promote_takes_effect (command : Command) (message : Message) (room : Room)
    (f : GoString)
    (hcmd : command = RoomCommandPromote)
    (hargs : 2 ≤ (Split message.Content.Data CommandDelimiter).length)
    (hf : (Split message.Content.Data CommandDelimiter).getD 1 [] = f) :
    (room.PeerByFingerprint message.Meta.Sender = none →
        promoteCallback command message room
          = (room, some (bytesOf "peer " ++ message.Meta.Sender ++ bytesOf " not found")))
      ∧ ∀ sender : MessagingPeer,
          room.PeerByFingerprint message.Meta.Sender = some sender →
          sender.Meta.Admin = true →
          ((∃ p ∈ room.Peers, p.RIdentity.Fingerprint = f) ∨ f = room.Self.Fingerprint) →
          (promoteCallback command message room).2 = none
            ∧ ((∃ p ∈ room.Peers, p.RIdentity.Fingerprint = f) →
                (∃ p', (promoteCallback command message room).1.PeerByFingerprint f = some p'
                    ∧ p'.Meta.Admin = true)
                  ∧ (promoteCallback command message room).1.Self = room.Self)
            ∧ ((∀ p ∈ room.Peers, p.RIdentity.Fingerprint ≠ f) →
                (promoteCallback command message room).1.Self.Meta.Admin = true
                  ∧ (promoteCallback command message room).1.Self.Fingerprint
                    = room.Self.Fingerprint
                  ∧ (promoteCallback command message room).1.Self.Meta.Nick
                    = room.Self.Meta.Nick
                  ∧ (promoteCallback command message room).1.Peers = room.Peers)
            ∧ List.Forall₂ (promotedFrom f) room.Peers
                (promoteCallback command message room).1.Peers
            ∧ (promoteCallback command message room).1.Name = room.Name
            ∧ (promoteCallback command message room).1.ID = room.ID
            ∧ (promoteCallback command message room).1.Messages = room.Messages
            ∧ (promoteCallback command message room).1.SyncState = room.SyncState
            ∧ (promoteCallback command message room).1.Deleted = room.Deleted := by
  constructor
  · intro hs
    subst hcmd
    have hparse := parseCommand_ok message RoomCommandPromote hargs
    simp [promoteCallback, hparse, hs, peerNotFoundError]
  · intro sender hs hadmin hmem
    exact promoteCallback_admin_peer command message room f sender hcmd hargs hf hs hadmin hmem

/-- C9 amended, at the example room: `alice`, an admin peer, sends
`promote bob`; no error, and the room differs only in the admin flag of
`bob`. -/
theorem admin_peer_promote_takes_effect_witness :
    (promoteCallback RoomCommandPromote (exampleCommand "alice" "promote bob") exampleRoom).2 = none
      ∧ promoteCallback RoomCommandPromote (exampleCommand "alice" "promote bob") exampleRoom
        = ({ exampleRoom with Peers := [examplePeer "alice" true, examplePeer "bob" true] },
            none) :=
  ⟨((admin_peer_promote_takes_effect RoomCommandPromote (exampleCommand "alice" "promote bob")
      exampleRoom (bytesOf "bob") rfl (by decide) (by decide)).2
      (examplePeer "alice" true) (by decide) rfl
      (Or.inl ⟨examplePeer "bob" false, by decide, by decide⟩)).1,
    by decide⟩

theorem inviteCallback_cases (env : Env) (command : Command) (message : Message) (room : Room) :
    (∃ err, inviteCallback env command message room = (room, some err))
      ∨ (command = RoomCommandInvite
          ∧ 2 ≤ (Split message.Content.Data CommandDelimiter).length
          ∧ room.PeerByFingerprint (arg1 (Split message.Content.Data CommandDelimiter)) = none
          ∧ arg1 (Split message.Content.Data CommandDelimiter) ≠ room.Self.Fingerprint
          ∧ ∃ peerID,
              env.NewIdentity (arg1 (Split message.Content.Data CommandDelimiter)) = .ok peerID
              ∧ inviteCallback env command message room
                = ({ room with
                      Peers := room.Peers
                        ++ [{ NewMessagingPeer peerID with QueueRunning := true }] },
                    none)) := by
  by_cases hcmd : command = RoomCommandInvite
  · by_cases hargs : 2 ≤ (Split message.Content.Data CommandDelimiter).length
    · subst hcmd
      have hparse := parseCommand_ok message RoomCommandInvite hargs
      cases hq : room.PeerByFingerprint (arg1 (Split message.Content.Data CommandDelimiter)) with
      | some q =>
        exact Or.inl ⟨bytesOf "user " ++ arg1 (Split message.Content.Data CommandDelimiter)
          ++ bytesOf " already added, or self", by simp [inviteCallback, hparse, hq]⟩
      | none =>
        by_cases hself : arg1 (Split message.Content.Data CommandDelimiter)
            = room.Self.Fingerprint
        · exact Or.inl ⟨bytesOf "user " ++ arg1 (Split message.Content.Data CommandDelimiter)
            ++ bytesOf " already added, or self", by simp [inviteCallback, hparse, hq, hself]⟩
        · cases hnew : env.NewIdentity (arg1 (Split message.Content.Data CommandDelimiter)) with
          | error e => exact Or.inl ⟨e, by simp [inviteCallback, hparse, hq, hself, hnew]⟩
          | ok peerID =>
            exact Or.inr ⟨rfl, hargs, rfl, hself, peerID, rfl,
              by simp [inviteCallback, hparse, hq, hself, hnew]⟩
    · obtain ⟨e, he⟩ := parseCommand_short message command RoomCommandInvite (by omega)
      exact Or.inl ⟨e, by simp [inviteCallback, he]⟩
  · exact Or.inl ⟨command ++ bytesOf " is the wrong command",
      by simp [inviteCallback, parseCommand, hcmd]⟩

/-- C10: when no peer has the fingerprint of `self`, no two peers share a
fingerprint, and an identity built from a fingerprint has that fingerprint,
the same holds of the room after `inviteCallback`. For the `invite` command
with second token `f`: if `f` is the fingerprint of a peer or of `self`, the
call returns an error and the room is unchanged; otherwise, the identity
built from `f` being `peerID`, it returns no error and the room differs only
in its peer list, which is the old one followed by one new peer, of identity
`peerID` and fingerprint `f`. -/
theorem invite_keeps_membership_invariant (env : Env) (command : Command) (message : Message)
    (room : Room) (hinv : membershipInvariant room)
    (hid : ∀ f peerID, env.NewIdentity f = .ok peerID → peerID.Fingerprint = f) :
    membershipInvariant (inviteCallback env command message room).1
      ∧ ∀ f, command = RoomCommandInvite →
          2 ≤ (Split message.Content.Data CommandDelimiter).length →
          (Split message.Content.Data CommandDelimiter).getD 1 [] = f →
          (((∃ p ∈ room.Peers, p.RIdentity.Fingerprint = f) ∨ f = room.Self.Fingerprint) →
              ∃ err, inviteCallback env command message room = (room, some err))
            ∧ (¬ ((∃ p ∈ room.Peers, p.RIdentity.Fingerprint = f) ∨ f = room.Self.Fingerprint) →
                ∀ peerID, env.NewIdentity f = .ok peerID →
                  peerID.Fingerprint = f
                    ∧ inviteCallback env command message room
                      = ({ room with
                            Peers := room.Peers
                              ++ [{ NewMessagingPeer peerID with QueueRunning := true }] },
                          none)) := by
  constructor
  · rcases inviteCallback_cases env command message room with ⟨e, he⟩ | h
    · rw [he]; exact hinv
    · obtain ⟨_, _, hq, hself, peerID, hnew, hout⟩ := h
      have hfp := hid _ _ hnew
      have hno := (PeerByFingerprint_eq_none room _).1 hq
      rw [hout]
      obtain ⟨h1, h2⟩ := hinv
      constructor
      · intro p hp
        simp only [List.mem_append, List.mem_singleton] at hp
        rcases hp with hp | hp
        · exact h1 p hp
        · subst hp
          simpa [NewMessagingPeer, hfp] using hself
      · simp only [List.map_append, List.map_cons, List.map_nil]
        rw [List.nodup_append]
        refine ⟨h2, by simp, ?_⟩
        intro a ha hb
        simp only [List.mem_singleton] at hb
        obtain ⟨p, hp, hpa⟩ := List.mem_map.1 ha
        apply hno p hp
        rw [hpa, hb]
        simp [NewMessagingPeer, hfp]
  · intro f hcmd hargs hf
    subst hcmd
    have hparse := parseCommand_ok message RoomCommandInvite hargs
    have harg : arg1 (Split message.Content.Data CommandDelimiter) = f := hf
    constructor
    · intro hmem
      rcases hmem with hpeer | hself
      · obtain ⟨q, hq⟩ := PeerByFingerprint_some_of_mem room f hpeer
        exact ⟨bytesOf "user " ++ f ++ bytesOf " already added, or self",
          by simp [inviteCallback, hparse, harg, hq]⟩
      · exact ⟨bytesOf "user " ++ f ++ bytesOf " already added, or self",
          by simp [inviteCallback, hparse, harg, hself]⟩
    · intro hnot peerID hnew
      have hq : room.PeerByFingerprint f = none :=
        (PeerByFingerprint_eq_none room f).2 (fun p hp hpf => hnot (Or.inl ⟨p, hp, hpf⟩))
      have hself : f ≠ room.Self.Fingerprint := fun h => hnot (Or.inr h)
      exact ⟨hid _ _ hnew, by simp [inviteCallback, hparse, harg, hq, hself, hnew]⟩

/-- C10, at the example room: `bob` invites `carol`; the invariant holds before
and after, and `carol` is appended to the peers with her queue started. -/
theorem invite_keeps_membership_invariant_witness :
    membershipInvariant exampleRoom
      ∧ membershipInvariant
          (inviteCallback specEnv RoomCommandInvite (exampleCommand "bob" "invite carol")
            exampleRoom).1
      ∧ inviteCallback specEnv RoomCommandInvite (exampleCommand "bob" "invite carol") exampleRoom
        = ({ exampleRoom with
              Peers := [examplePeer "alice" true, examplePeer "bob" false,
                examplePeer "carol" false] },
            none)
      ∧ inviteCallback specEnv RoomCommandInvite (exampleCommand "bob" "invite alice") exampleRoom
        = (exampleRoom, some (bytesOf "user alice already added, or self")) :=
  ⟨by unfold membershipInvariant; decide,
    (invite_keeps_membership_invariant specEnv RoomCommandInvite
      (exampleCommand "bob" "invite carol") exampleRoom (by unfold membershipInvariant; decide)
      (by intro f peerID h; cases h; rfl)).1,
    by decide, by decide⟩

/-! ### `name_room`, `nick`, `accept` -/

theorem CommandDelimiter_isPrefixOf (b : UInt8) (rest : GoString) :
    CommandDelimiter.isPrefixOf (b :: rest) = decide (b = 32) := by
  have hd : CommandDelimiter = [32] := by decide
  rw [hd]
  by_cases hb : b = 32
  · simp [List.isPrefixOf, hb]
  · simp [List.isPrefixOf, hb, Ne.symm hb]

theorem splitAux_delimiter (rest cur : GoString) :
    splitAux CommandDelimiter (32 :: rest) 0 cur = cur :: splitAux CommandDelimiter rest 0 [] := by
  have hl : CommandDelimiter.length - 1 = 0 := by decide
  rw [splitAux, CommandDelimiter_isPrefixOf, hl]
  simp

theorem splitAux_other (b : UInt8) (rest cur : GoString) (hb : b ≠ 32) :
    splitAux CommandDelimiter (b :: rest) 0 cur
      = splitAux CommandDelimiter rest 0 (cur ++ [b]) := by
  rw [splitAux, CommandDelimiter_isPrefixOf]
  simp [hb]

theorem splitAux_first (s cur : GoString) :
    ∃ ts, splitAux CommandDelimiter s 0 cur
      = (cur ++ s.takeWhile (fun b => b != 32)) :: ts := by
  induction s generalizing cur with
  | nil => exact ⟨[], by simp [splitAux]⟩
  | cons b rest ih =>
    by_cases hb : b = 32
    · subst hb
      exact ⟨splitAux CommandDelimiter rest 0 [],
        by rw [splitAux_delimiter, List.takeWhile_cons]; simp⟩
    · obtain ⟨ts, hts⟩ := ih (cur ++ [b])
      exact ⟨ts, by rw [splitAux_other b rest cur hb, hts, List.takeWhile_cons]; simp [hb]⟩

theorem splitAux_command (c n cur : GoString) (hc : ∀ b ∈ c, b ≠ 32) :
    splitAux CommandDelimiter (c ++ CommandDelimiter ++ n) 0 cur
      = (cur ++ c) :: splitAux CommandDelimiter n 0 [] := by
  have hd : CommandDelimiter = [32] := by decide
  induction c generalizing cur with
  | nil =>
    rw [hd]
    simpa using splitAux_delimiter n cur
  | cons b rest ih =>
    have hb : b ≠ 32 := hc b (List.mem_cons_self _ _)
    have hcons : (b :: rest) ++ CommandDelimiter ++ n = b :: (rest ++ CommandDelimiter ++ n) := by
      simp
    rw [hcons, splitAux_other _ _ _ hb, ih _ (fun x hx => hc x (List.mem_cons_of_mem _ hx))]
    simp

/-- The tokens of a payload made of a command without the delimiter byte, the
delimiter and a body: there are at least two, and the second one is the body
up to its first space. -/
theorem Split_command_payload (c n : GoString) (hc : ∀ b ∈ c, b ≠ 32) :
    2 ≤ (Split (c ++ CommandDelimiter ++ n) CommandDelimiter).length
      ∧ arg1 (Split (c ++ CommandDelimiter ++ n) CommandDelimiter)
        = n.takeWhile (fun b => b != 32) := by
  unfold Split
  rw [splitAux_command c n [] hc]
  obtain ⟨ts, hts⟩ := splitAux_first n []
  rw [hts]
  simp [arg1]

theorem takeWhile_no_delimiter (n : GoString) (h : ∀ b ∈ n, b ≠ 32) :
    n.takeWhile (fun b => b != 32) = n := by
  induction n with
  | nil => rfl
  | cons b rest ih =>
    have hb : b ≠ 32 := h b (List.mem_cons_self _ _)
    rw [List.takeWhile_cons]
    simp [hb, ih (fun x hx => h x (List.mem_cons_of_mem _ hx))]

/-- C11, as stated, fails for a name with a space: the payload
`ConstructCommand` builds for the name `my room` is `name_room my room`, and
`nameRoomCallback` on it sets the room's name to `my`. -/
theorem name_room_keeps_only_first_word :
    (exampleCommand "alice" "name_room my room").Content.Data
        = ConstructCommand (bytesOf "my room") RoomCommandNameRoom
      ∧ (exampleCommand "alice" "name_room my room").Content.Data
        = RoomCommandNameRoom ++ [32] ++ bytesOf "my room"
      ∧ nameRoomCallback RoomCommandNameRoom (exampleCommand "alice" "name_room my room")
          exampleRoom
        = ({ exampleRoom with Name := bytesOf "my" }, none)
      ∧ (nameRoomCallback RoomCommandNameRoom (exampleCommand "alice" "name_room my room")
          exampleRoom).1.Name ≠ bytesOf "my room" := by
  decide

/-- C11, amended: on a command message whose content is `name_room`, one
space, then `n`, `nameRoomCallback` returns no error and the room differs
only in its name, which is `n` up to its first space; the name is `n` when
`n` contains no space. For a non-empty `n` this content is the payload
`ConstructCommand n name_room`; for the empty `n` that payload is `name_room`
alone, on which the callback returns an error and leaves the room as it
is. -/
theorem name_room_sets_name_to_second_token (message : Message) (room : Room) (n : GoString)
    (hdata : message.Content.Data = RoomCommandNameRoom ++ CommandDelimiter ++ n) :
    nameRoomCallback RoomCommandNameRoom message room
        = ({ room with Name := n.takeWhile (fun b => b != 32) }, none)
      ∧ ((∀ b ∈ n, b ≠ 32) →
          (nameRoomCallback RoomCommandNameRoom message room).1.Name = n)
      ∧ (nameRoomCallback RoomCommandNameRoom message room).1.Peers = room.Peers
      ∧ (nameRoomCallback RoomCommandNameRoom message room).1.Self = room.Self
      ∧ (nameRoomCallback RoomCommandNameRoom message room).1.ID = room.ID
      ∧ (n ≠ [] → ConstructCommand n RoomCommandNameRoom = message.Content.Data)
      ∧ ∀ m : Message, m.Content.Data = ConstructCommand [] RoomCommandNameRoom →
          ∃ err, nameRoomCallback RoomCommandNameRoom m room = (room, some err) := by
  have hc : ∀ b ∈ RoomCommandNameRoom, b ≠ 32 := by decide
  obtain ⟨hlen, harg⟩ := Split_command_payload RoomCommandNameRoom n hc
  rw [← hdata] at hlen harg
  have hout : nameRoomCallback RoomCommandNameRoom message room
      = ({ room with Name := n.takeWhile (fun b => b != 32) }, none) := by
    simp [nameRoomCallback, parseCommand_ok message RoomCommandNameRoom hlen, harg]
  refine ⟨hout, ?_, ?_, ?_, ?_, ?_, ?_⟩
  · intro hn
    rw [hout]
    exact takeWhile_no_delimiter n hn
  · rw [hout]
  · rw [hout]
  · rw [hout]
  · intro hn
    have hne : RoomCommandNameRoom ≠ [] := by decide
    simp [ConstructCommand, hne, hn, hdata]
  · intro m hm
    have hshort : (Split m.Content.Data CommandDelimiter).length < 2 := by
      rw [hm]; decide
    obtain ⟨e, he⟩ := parseCommand_short m RoomCommandNameRoom RoomCommandNameRoom hshort
    exact ⟨e, by simp [nameRoomCallback, he]⟩

/-- C11 amended, at the example room: `name_room lobby` sets the name to
`lobby`. -/
theorem name_room_sets_name_to_second_token_witness :
    nameRoomCallback RoomCommandNameRoom (exampleCommand "alice" "name_room lobby") exampleRoom
      = ({ exampleRoom with Name := bytesOf "lobby" }, none) :=
  (name_room_sets_name_to_second_token (exampleCommand "alice" "name_room lobby") exampleRoom
    (bytesOf "lobby") (by decide)).1

theorem updatePeer_renamedFrom (sender nickname : GoString) (peers : List MessagingPeer) :
    List.Forall₂ (renamedFrom sender) peers
      (updatePeer sender (fun p => { p with Meta := { p.Meta with Nick := nickname } }) peers) := by
  induction peers with
  | nil => exact List.Forall₂.nil
  | cons p rest ih =>
    by_cases hp : p.RIdentity.Fingerprint = sender
    · simp only [updatePeer, hp, if_true]
      refine List.Forall₂.cons ?_ ?_
      · simp [renamedFrom, hp]
      · exact List.forall₂_same.2 (fun x _ => by simp [renamedFrom])
    · simp only [updatePeer, hp, if_false]
      exact List.Forall₂.cons (by simp [renamedFrom]) ih

theorem nickCallback_cases (command : Command) (message : Message) (room : Room) :
    (∃ err, nickCallback command message room = (room, some err))
      ∨ ∃ sender, room.PeerByFingerprint message.Meta.Sender = some sender
          ∧ nickCallback command message room
            = ({ room with
                  Peers := updatePeer message.Meta.Sender
                    (fun p => { p with Meta := { p.Meta with
                      Nick := arg1 (Split message.Content.Data CommandDelimiter) } })
                    room.Peers },
                none) := by
  by_cases hcmd : command = RoomCommandNick
  · by_cases hargs : 2 ≤ (Split message.Content.Data CommandDelimiter).length
    · subst hcmd
      have hparse := parseCommand_ok message RoomCommandNick hargs
      cases hs : room.PeerByFingerprint message.Meta.Sender with
      | none =>
        exact Or.inl ⟨peerNotFoundError message.Meta.Sender,
          by simp [nickCallback, hparse, hs]⟩
      | some sender => exact Or.inr ⟨sender, rfl, by simp [nickCallback, hparse, hs]⟩
    · obtain ⟨e, he⟩ := parseCommand_short message command RoomCommandNick (by omega)
      exact Or.inl ⟨e, by simp [nickCallback, he]⟩
  · exact Or.inl ⟨command ++ bytesOf " is the wrong command",
      by simp [nickCallback, parseCommand, hcmd]⟩

/-- C12: whatever the command and the message, `nickCallback` leaves every
peer as it was except for the nick of a peer with the sender's fingerprint,
and leaves `self`, the name and the rest of the room as they were. On the
`nick` command with at least two tokens: when a peer is found for the sender,
it returns no error and the peer found for the sender afterwards is that
peer with its nick set to the second token; when no peer is found for the
sender, it returns the error "peer ... not found" and the room unchanged. -/
theorem nick_changes_only_the_sender (command : Command) (message : Message) (room : Room) :
    (List.Forall₂ (renamedFrom message.Meta.Sender) room.Peers
          (nickCallback command message room).1.Peers
        ∧ (nickCallback command message room).1.Self = room.Self
        ∧ (nickCallback command message room).1.Name = room.Name
        ∧ (nickCallback command message room).1.ID = room.ID
        ∧ (nickCallback command message room).1.Messages = room.Messages
        ∧ (nickCallback command message room).1.SyncState = room.SyncState
        ∧ (nickCallback command message room).1.Deleted = room.Deleted)
      ∧ (command = RoomCommandNick →
          2 ≤ (Split message.Content.Data CommandDelimiter).length →
          (∀ sender, room.PeerByFingerprint message.Meta.Sender = some sender →
              (nickCallback command message room).2 = none
                ∧ (nickCallback command message room).1.PeerByFingerprint message.Meta.Sender
                  = some { sender with Meta := { sender.Meta with
                      Nick := (Split message.Content.Data CommandDelimiter).getD 1 [] } })
            ∧ (room.PeerByFingerprint message.Meta.Sender = none →
                nickCallback command message room
                  = (room,
                      some (bytesOf "peer " ++ message.Meta.Sender ++ bytesOf " not found")))) := by
  constructor
  · rcases nickCallback_cases command message room with ⟨e, he⟩ | ⟨sender, _, hout⟩
    · rw [he]
      exact ⟨List.forall₂_same.2 (fun x _ => by simp [renamedFrom]), rfl, rfl, rfl, rfl, rfl, rfl⟩
    · rw [hout]
      exact ⟨updatePeer_renamedFrom _ _ _, rfl, rfl, rfl, rfl, rfl, rfl⟩
  · intro hcmd hargs
    subst hcmd
    have hparse := parseCommand_ok message RoomCommandNick hargs
    constructor
    · intro sender hs
      have hout : nickCallback RoomCommandNick message room
          = ({ room with
                Peers := updatePeer message.Meta.Sender
                  (fun p => { p with Meta := { p.Meta with
                    Nick := arg1 (Split message.Content.Data CommandDelimiter) } })
                  room.Peers },
              none) := by
        simp [nickCallback, hparse, hs]
      rw [hout]
      exact ⟨rfl, find_updatePeer message.Meta.Sender
        (fun p => { p with Meta := { p.Meta with
          Nick := arg1 (Split message.Content.Data CommandDelimiter) } })
        (fun _ => rfl) room.Peers sender hs⟩
    · intro hs
      simp [nickCallback, hparse, hs, peerNotFoundError]

/-- C12, at the example room: `bob` sends `nick bobby`; only his nick
changes. `carol`, who is not a peer, gets an error. -/
theorem nick_changes_only_the_sender_witness :
    (nickCallback RoomCommandNick (exampleCommand "bob" "nick bobby") exampleRoom).2 = none
      ∧ nickCallback RoomCommandNick (exampleCommand "bob" "nick bobby") exampleRoom
        = ({ exampleRoom with
              Peers := [examplePeer "alice" true,
                { examplePeer "bob" false with Meta := { Nick := bytesOf "bobby", Admin := false } }] },
            none)
      ∧ nickCallback RoomCommandNick (exampleCommand "carol" "nick caz") exampleRoom
        = (exampleRoom, some (bytesOf "peer carol not found")) :=
  ⟨(((nick_changes_only_the_sender RoomCommandNick (exampleCommand "bob" "nick bobby")
      exampleRoom).2 rfl (by decide)).1 (examplePeer "bob" false) (by decide)).1,
    by decide,
    ((nick_changes_only_the_sender RoomCommandNick (exampleCommand "carol" "nick caz")
      exampleRoom).2 rfl (by decide)).2 (by decide)⟩

theorem RegisterRoomCommands_empty (env : Env) :
    RegisterRoomCommands env []
      = ([(RoomCommandRemove, removeCallback env), (RoomCommandPromote, promoteCallback),
            (RoomCommandNick, nickCallback), (RoomCommandNameRoom, nameRoomCallback),
            (RoomCommandInvite, inviteCallback env)],
          none) := by
  rfl

theorem accept_not_registered (env : Env) :
    mapGet (RegisterRoomCommands env []).1 RoomCommandAccept = none := by
  rw [RegisterRoomCommands_empty]
  rfl

/-- C13, as stated, fails: after `RegisterRoomCommands` on the empty registry
(which returns no error), `HandleCommand` on the command message `accept`
returns the error "command accept is not registered". -/
theorem accept_dispatch_returns_error :
    (RegisterRoomCommands specEnv []).2 = none
      ∧ (HandleCommand (exampleCommand "alice" "accept") exampleRoom
          (RegisterRoomCommands specEnv []).1).2
        = (exampleRoom, some (bytesOf "command accept is not registered")) := by
  decide

/-- C13, amended: `RegisterRoomCommands` on the empty registry returns no
error and binds `invite`, `name_room`, `nick`, `promote` and `remove`, but
not `accept`; for every room and sender, `HandleCommand` on a command-type
message whose content is `accept` returns the error "command accept is not
registered" and leaves the registry and the room unchanged. -/
theorem accept_is_unregistered_and_changes_nothing (env : Env) (message : Message)
    (room : Room) (htype : message.Content.Typ = ContentType.ContentTypeCmd)
    (hdata : message.Content.Data = RoomCommandAccept) :
    (RegisterRoomCommands env []).2 = none
      ∧ mapGet (RegisterRoomCommands env []).1 RoomCommandAccept = none
      ∧ (mapGet (RegisterRoomCommands env []).1 RoomCommandInvite).isSome = true
      ∧ (mapGet (RegisterRoomCommands env []).1 RoomCommandNameRoom).isSome = true
      ∧ (mapGet (RegisterRoomCommands env []).1 RoomCommandNick).isSome = true
      ∧ (mapGet (RegisterRoomCommands env []).1 RoomCommandPromote).isSome = true
      ∧ (mapGet (RegisterRoomCommands env []).1 RoomCommandRemove).isSome = true
      ∧ HandleCommand message room (RegisterRoomCommands env []).1
        = ((RegisterRoomCommands env []).1, room,
            some (bytesOf "command accept is not registered")) := by
  have htok : firstToken message = RoomCommandAccept := by
    rw [firstToken_whole_content message (by rw [hdata]; decide), hdata]
  refine ⟨rfl, accept_not_registered env, rfl, rfl, rfl, rfl, rfl, ?_⟩
  rw [HandleCommand_not_found _ message room htype (by rw [htok]; exact accept_not_registered env),
    htok]
  rfl

/-- C13 amended, at the example room. -/
theorem accept_is_unregistered_and_changes_nothing_witness :
    HandleCommand (exampleCommand "alice" "accept") exampleRoom (RegisterRoomCommands specEnv []).1
      = ((RegisterRoomCommands specEnv []).1, exampleRoom,
          some (bytesOf "command accept is not registered")) :=
  (accept_is_unregistered_and_changes_nothing specEnv (exampleCommand "alice" "accept")
    exampleRoom (by decide) (by decide)).2.2.2.2.2.2.2

/-! ### The queue loop -/

theorem syncStateMatch_foldl (lastSyncState rest : SyncMap) (acc : Bool) :
    rest.foldl
        (fun m kv =>
          match mapGet lastSyncState kv.1 with
          | none => false
          | some t => if t.Before kv.2 then false else m)
        acc = true
      ↔ acc = true ∧ ∀ k v, (k, v) ∈ rest →
          ∃ t, mapGet lastSyncState k = some t ∧ ¬ t < v := by
  induction rest generalizing acc with
  | nil => simp
  | cons kv rest ih =>
    obtain ⟨k, v⟩ := kv
    rw [List.foldl_cons, ih]
    cases hk : mapGet lastSyncState k with
    | none =>
      simp only [Bool.false_eq_true, false_and, false_iff, not_and]
      intro _ h
      obtain ⟨t, ht, _⟩ := h k v (List.mem_cons_self _ _)
      rw [hk] at ht
      cases ht
    | some t =>
      by_cases hlt : t < v
      · simp only [Time.Before, hlt, decide_True, if_true, Bool.false_eq_true, false_and,
          false_iff, not_and]
        intro _ h
        obtain ⟨t', ht', hn⟩ := h k v (List.mem_cons_self _ _)
        rw [hk] at ht'
        cases ht'
        exact hn hlt
      · simp only [Time.Before, hlt, decide_False, Bool.false_eq_true, if_false]
        constructor
        · rintro ⟨hacc, h⟩
          refine ⟨hacc, ?_⟩
          intro k' v' hmem
          rcases List.mem_cons.1 hmem with heq | hmem
          · cases heq
            exact ⟨t, hk, hlt⟩
          · exact h k' v' hmem
        · rintro ⟨hacc, h⟩
          exact ⟨hacc, fun k' v' hmem => h k' v' (List.mem_cons_of_mem _ hmem)⟩

theorem syncStateMatch_iff (roomSyncState lastSyncState : SyncMap) :
    syncStateMatch roomSyncState lastSyncState = true
      ↔ ∀ k v, (k, v) ∈ roomSyncState →
          ∃ t, mapGet lastSyncState k = some t ∧ ¬ t < v := by
  unfold syncStateMatch
  rw [syncStateMatch_foldl]
  simp

theorem mem_of_mapGet {m : SyncMap} {k : GoString} {v : Time} (h : mapGet m k = some v) :
    (k, v) ∈ m := by
  induction m with
  | nil => simp [mapGet] at h
  | cons e rest ih =>
    obtain ⟨k', v'⟩ := e
    by_cases hk : k' = k
    · simp [mapGet, hk] at h
      subst hk; subst h
      exact List.mem_cons_self _ _
    · simp [mapGet, hk] at h
      exact List.mem_cons_of_mem _ (ih h)

theorem mapGet_of_mem {m : SyncMap} (hu : uniqueKeys m) {k : GoString} {v : Time}
    (h : (k, v) ∈ m) : mapGet m k = some v := by
  induction m with
  | nil => cases h
  | cons e rest ih =>
    obtain ⟨k', v'⟩ := e
    unfold uniqueKeys at hu
    simp only [List.map_cons, List.nodup_cons] at hu
    rcases List.mem_cons.1 h with heq | hmem
    · cases heq
      simp [mapGet]
    · have hk : k' ≠ k := by
        intro hk
        subst hk
        exact hu.1 (List.mem_map.2 ⟨(k', v), hmem, rfl⟩)
      simp only [mapGet, hk, if_false]
      exact ih hu.2 hmem

theorem RunMessageQueueIteration_skip_iff (syncMsgs : MessagingPeer → Room → Option GoString)
    (room : Room) (mp : MessagingPeer) :
    (RunMessageQueueIteration syncMsgs room mp).2 = false
      ↔ syncStateMatch room.SyncState mp.LastSyncState = true := by
  unfold RunMessageQueueIteration
  by_cases hm : syncStateMatch room.SyncState mp.LastSyncState = true
  · simp [hm]
  · simp only [hm, if_false, iff_false]
    cases syncMsgs mp room <;> simp

/-- C14: in one pass of the loop of `RunMessageQueue`, `syncMsgs` is not
called exactly when for every entry `(k, v)` of the room's sync state the
peer's last sync state has an entry for `k` that is not earlier than `v`; for
a room sync state with one entry per key the entries are the values `mapGet`
reads; an empty room sync state skips the sync, and a skipped pass leaves the
peer as it was. -/
theorem caught_up_test_matches (syncMsgs : MessagingPeer → Room → Option GoString)
    (room : Room) (mp : MessagingPeer) :
    ((RunMessageQueueIteration syncMsgs room mp).2 = false
        ↔ ∀ k v, (k, v) ∈ room.SyncState →
            ∃ t, mapGet mp.LastSyncState k = some t ∧ ¬ t < v)
      ∧ (uniqueKeys room.SyncState →
          ((RunMessageQueueIteration syncMsgs room mp).2 = false
            ↔ ∀ k v, mapGet room.SyncState k = some v →
                ∃ t, mapGet mp.LastSyncState k = some t ∧ ¬ t < v))
      ∧ (room.SyncState = [] → (RunMessageQueueIteration syncMsgs room mp).2 = false)
      ∧ ((RunMessageQueueIteration syncMsgs room mp).2 = false →
          (RunMessageQueueIteration syncMsgs room mp).1 = mp) := by
  have h1 := (RunMessageQueueIteration_skip_iff syncMsgs room mp).trans
    (syncStateMatch_iff room.SyncState mp.LastSyncState)
  refine ⟨h1, ?_, ?_, ?_⟩
  · intro hu
    rw [h1]
    constructor
    · intro h k v hk
      exact h k v (mem_of_mapGet hk)
    · intro h k v hmem
      exact h k v (mapGet_of_mem hu hmem)
  · intro he
    rw [h1, he]
    intro k v hmem
    cases hmem
  · intro hskip
    have hm := (RunMessageQueueIteration_skip_iff syncMsgs room mp).1 hskip
    simp [RunMessageQueueIteration, hm]

/-- C14, at the example room: `bob` has seen `alice` up to 9 and `bob` up to
7 but has no entry for `carol`, so the sync is attempted; with the three
entries it is skipped. -/
theorem caught_up_test_matches_witness :
    (RunMessageQueueIteration (fun _ _ => none) exampleSyncRoom
        { examplePeer "bob" false with
          LastSyncState := [(bytesOf "alice", 9), (bytesOf "bob", 7)] }).2 = true
      ∧ (RunMessageQueueIteration (fun _ _ => none) exampleSyncRoom
          { examplePeer "bob" false with
            LastSyncState := [(bytesOf "alice", 9), (bytesOf "bob", 8), (bytesOf "carol", 1)] }).1
        = { examplePeer "bob" false with
            LastSyncState := [(bytesOf "alice", 9), (bytesOf "bob", 8), (bytesOf "carol", 1)] } :=
  ⟨by decide,
    (caught_up_test_matches (fun _ _ => none) exampleSyncRoom
      { examplePeer "bob" false with
        LastSyncState := [(bytesOf "alice", 9), (bytesOf "bob", 8), (bytesOf "carol", 1)] }).2.2.2
      (by decide)⟩

theorem syncStateMatch_self (m : SyncMap) (hu : uniqueKeys m) : syncStateMatch m m = true := by
  rw [syncStateMatch_iff]
  intro k v hmem
  exact ⟨v, mapGet_of_mem hu hmem, lt_irrefl v⟩

/-- C15: in a pass of the loop in which `syncMsgs` is called, when it returns
an error the peer is left as it was, and when it returns no error the
peer's last sync state is the room's sync state, key for key, the rest of the
peer being as it was; a next pass on the same room, its sync state holding
one entry per key, then skips the sync and leaves the peer as it is. -/
theorem last_sync_state_moves_only_on_success
    (syncMsgs : MessagingPeer → Room → Option GoString) (room : Room) (mp : MessagingPeer)
    (hattempt : (RunMessageQueueIteration syncMsgs room mp).2 = true) :
    (∀ err, syncMsgs mp room = some err → (RunMessageQueueIteration syncMsgs room mp).1 = mp)
      ∧ (syncMsgs mp room = none →
          (RunMessageQueueIteration syncMsgs room mp).1.LastSyncState = room.SyncState
            ∧ (∀ k, mapGet (RunMessageQueueIteration syncMsgs room mp).1.LastSyncState k
                = mapGet room.SyncState k)
            ∧ (RunMessageQueueIteration syncMsgs room mp).1.RIdentity = mp.RIdentity
            ∧ (RunMessageQueueIteration syncMsgs room mp).1.Meta = mp.Meta
            ∧ (RunMessageQueueIteration syncMsgs room mp).1.QueueRunning = mp.QueueRunning
            ∧ (uniqueKeys room.SyncState →
                ∀ next : MessagingPeer → Room → Option GoString,
                  RunMessageQueueIteration next room (RunMessageQueueIteration syncMsgs room mp).1
                    = ((RunMessageQueueIteration syncMsgs room mp).1, false))) := by
  have hm : ¬ syncStateMatch room.SyncState mp.LastSyncState = true := by
    intro h
    have := (RunMessageQueueIteration_skip_iff syncMsgs room mp).2 h
    rw [this] at hattempt
    cases hattempt
  constructor
  · intro err herr
    simp [RunMessageQueueIteration, hm, herr]
  · intro hok
    have hout : RunMessageQueueIteration syncMsgs room mp
        = ({ mp with LastSyncState := room.SyncState }, true) := by
      simp [RunMessageQueueIteration, hm, hok, CopySyncMap]
    rw [hout]
    refine ⟨rfl, fun _ => rfl, rfl, rfl, rfl, ?_⟩
    intro hu next
    simp [RunMessageQueueIteration, syncStateMatch_self room.SyncState hu]

/-- C15, at the example room: `bob` lacks the entry of `carol`; a failed sync
leaves his last sync state, a successful one replaces it by the room's. -/
theorem last_sync_state_moves_only_on_success_witness :
    (RunMessageQueueIteration (fun _ _ => some (bytesOf "EOF")) exampleSyncRoom
        { examplePeer "bob" false with
          LastSyncState := [(bytesOf "alice", 9), (bytesOf "bob", 7)] }).1
        = { examplePeer "bob" false with
            LastSyncState := [(bytesOf "alice", 9), (bytesOf "bob", 7)] }
      ∧ (RunMessageQueueIteration (fun _ _ => none) exampleSyncRoom
          { examplePeer "bob" false with
            LastSyncState := [(bytesOf "alice", 9), (bytesOf "bob", 7)] }).1.LastSyncState
        = [(bytesOf "alice", 9), (bytesOf "bob", 7), (bytesOf "carol", 1)] :=
  ⟨(last_sync_state_moves_only_on_success (fun _ _ => some (bytesOf "EOF")) exampleSyncRoom
      { examplePeer "bob" false with
        LastSyncState := [(bytesOf "alice", 9), (bytesOf "bob", 7)] } (by decide)).1
      (bytesOf "EOF") rfl,
    ((last_sync_state_moves_only_on_success (fun _ _ => none) exampleSyncRoom
      { examplePeer "bob" false with
        LastSyncState := [(bytesOf "alice", 9), (bytesOf "bob", 7)] } (by decide)).2 rfl).1⟩

/-! ### The signed digest -/

theorem UInt8_toNat_ofNat (n : Nat) : (UInt8.ofNat n).toNat = n % 256 := rfl

theorem toInt64_range (i : Int) : -2 ^ 63 ≤ toInt64 i ∧ toInt64 i < 2 ^ 63 := by
  unfold toInt64
  omega

theorem toUint64_lt (i : Int) : toUint64 i < 2 ^ 64 := by
  unfold toUint64
  omega

theorem twosComplement64_toUint64 (i : Int) (h1 : -2 ^ 63 ≤ i) (h2 : i < 2 ^ 63) :
    twosComplement64 (toUint64 i) = i := by
  unfold twosComplement64 toUint64
  split <;> omega

theorem littleEndianValue_PutUint64 (v : Nat) (h : v < 2 ^ 64) :
    littleEndianValue (PutUint64 v) = v := by
  have hb : ∀ n : Nat, (UInt8.ofNat n).toNat = n % 256 := fun _ => rfl
  simp only [PutUint64, littleEndianValue, hb, Nat.shiftRight_eq_div_pow]
  omega

theorem int64ToBytes_length (i : Int) : (Internal.int64ToBytes i).length = 8 := rfl

theorem int64ToBytes_value (i : Int) (h1 : -2 ^ 63 ≤ i) (h2 : i < 2 ^ 63) :
    twosComplement64 (littleEndianValue (Internal.int64ToBytes i)) = i := by
  unfold Internal.int64ToBytes
  rw [littleEndianValue_PutUint64 _ (toUint64_lt i), twosComplement64_toUint64 i h1 h2]

/-- C16: `digestBytes` is the bytes of the sender, then the 8 bytes of
`int64ToBytes` of the Unix seconds, then the type byte, then the content;
the 8 bytes read as a little-endian number in two's complement give the Unix
seconds back (also when negative); the length is `len(sender) + 9 +
len(content)`; `Sign` stores the signature of these bytes without changing
them, and `Verify` checks the stored signature against these bytes, a `nil`
signature being rejected. -/
theorem digest_has_the_layout (ed : Internal.Ed25519) (m : Internal.Message)
    (priv pub : GoString) :
    m.digestBytes = m.Sender ++ Internal.int64ToBytes m.Time.Unix ++ [m.Typ] ++ m.Content
      ∧ (Internal.int64ToBytes m.Time.Unix).length = 8
      ∧ twosComplement64 (littleEndianValue (Internal.int64ToBytes m.Time.Unix)) = m.Time.Unix
      ∧ m.digestBytes.length = m.Sender.length + 9 + m.Content.length
      ∧ (m.Sign ed priv).Signature = some (ed.Sign priv m.digestBytes)
      ∧ (m.Sign ed priv).digestBytes = m.digestBytes
      ∧ (∀ sig, m.Signature = some sig → m.Verify ed pub = ed.Verify pub m.digestBytes sig)
      ∧ (m.Signature = none → m.Verify ed pub = false) := by
  have hr := toInt64_range (m.Time / 1000000000)
  refine ⟨rfl, rfl, int64ToBytes_value _ hr.1 hr.2, ?_, rfl, rfl, ?_, ?_⟩
  · simp only [Internal.Message.digestBytes, List.length_append, int64ToBytes_length,
      List.length_singleton]
  · intro sig hsig
    simp [Internal.Message.Verify, hsig]
  · intro hsig
    simp [Internal.Message.Verify, hsig]

/-- C16, on a message sent 1.5 seconds before the epoch: the Unix seconds are
-2, encoded as `fe ff ff ff ff ff ff ff`. -/
theorem digest_has_the_layout_witness :
    Internal.Message.digestBytes
        { Sender := bytesOf "ab", Time := -1500000000, Typ := Internal.MTYPE_CMD,
          Content := bytesOf "hi", Signature := none }
      = [97, 98, 254, 255, 255, 255, 255, 255, 255, 255, 1, 104, 105]
      ∧ Internal.Message.Verify ⟨fun _ d => d, fun _ d sig => decide (d = sig)⟩
          { Sender := bytesOf "ab", Time := -1500000000, Typ := Internal.MTYPE_CMD,
            Content := bytesOf "hi", Signature := none } [] = false :=
  ⟨by decide,
    (digest_has_the_layout ⟨fun _ d => d, fun _ d sig => decide (d = sig)⟩
      { Sender := bytesOf "ab", Time := -1500000000, Typ := Internal.MTYPE_CMD,
        Content := bytesOf "hi", Signature := none } [] []).2.2.2.2.2.2.2 rfl⟩

/-! ### Fingerprints -/

theorem EncodeToString_test_vectors :
    EncodeToString (bytesOf "Man") = bytesOf "TWFu"
      ∧ EncodeToString (bytesOf "Ma") = bytesOf "TWE"
      ∧ EncodeToString (bytesOf "M") = bytesOf "TQ"
      ∧ EncodeToString [0xfb, 0xff, 0xbf] = bytesOf "-_-_" := by
  decide

theorem encodeChar_index : ∀ i, i < 64 → encodeURL.indexOf (encodeChar i) = i := by
  decide

theorem encodeChar_ne_at : ∀ i, i < 64 → encodeChar i ≠ 64 := by
  decide

theorem encodeChar_injective (i j : Nat) (hi : i < 64) (hj : j < 64)
    (h : encodeChar i = encodeChar j) : i = j := by
  rw [← encodeChar_index i hi, ← encodeChar_index j hj, h]

theorem sextets_lt (src : List UInt8) : ∀ x ∈ sextets src, x < 64 := by
  induction src using sextets.induct with
  | case1 => simp [sextets]
  | case2 a =>
    intro x hx
    simp only [sextets, List.mem_cons, List.mem_singleton, List.not_mem_nil, or_false] at hx
    omega
  | case3 a b =>
    intro x hx
    simp only [sextets, List.mem_cons, List.mem_singleton, List.not_mem_nil, or_false] at hx
    omega
  | case4 a b c rest ih =>
    intro x hx
    simp only [sextets, List.mem_cons] at hx
    rcases hx with h | h | h | h | h
    · omega
    · omega
    · omega
    · omega
    · exact ih x h

theorem map_encodeChar_injective (l1 l2 : List Nat) (h1 : ∀ x ∈ l1, x < 64)
    (h2 : ∀ x ∈ l2, x < 64) (h : l1.map encodeChar = l2.map encodeChar) : l1 = l2 := by
  induction l1 generalizing l2 with
  | nil =>
    cases l2 with
    | nil => rfl
    | cons y ys => simp at h
  | cons x xs ih =>
    cases l2 with
    | nil => simp at h
    | cons y ys =>
      simp only [List.map_cons, List.cons.injEq] at h
      have hxy := encodeChar_injective x y (h1 x (List.mem_cons_self _ _))
        (h2 y (List.mem_cons_self _ _)) h.1
      rw [hxy, ih ys (fun z hz => h1 z (List.mem_cons_of_mem _ hz))
        (fun z hz => h2 z (List.mem_cons_of_mem _ hz)) h.2]

theorem sextets_injective (l1 l2 : List UInt8) (h : sextets l1 = sextets l2) : l1 = l2 := by
  induction l1 using sextets.induct generalizing l2 with
  | case1 =>
    match l2 with
    | [] => rfl
    | [_] => simp [sextets] at h
    | [_, _] => simp [sextets] at h
    | _ :: _ :: _ :: _ => simp [sextets] at h
  | case2 a =>
    match l2 with
    | [] => simp [sextets] at h
    | [a'] =>
      simp only [sextets, List.cons.injEq, and_true] at h
      have ha := UInt8.toNat_lt_size a
      have ha' := UInt8.toNat_lt_size a'
      simp only [UInt8.size] at ha ha'
      have : a.toNat = a'.toNat := by omega
      rw [UInt8.ext_iff.mpr this]
    | [_, _] => simp [sextets] at h
    | _ :: _ :: _ :: _ => simp [sextets] at h
  | case3 a b =>
    match l2 with
    | [] => simp [sextets] at h
    | [_] => simp [sextets] at h
    | [a', b'] =>
      simp only [sextets, List.cons.injEq, and_true] at h
      have ha := UInt8.toNat_lt_size a
      have ha' := UInt8.toNat_lt_size a'
      have hb := UInt8.toNat_lt_size b
      have hb' := UInt8.toNat_lt_size b'
      simp only [UInt8.size] at ha ha' hb hb'
      have e1 : a.toNat = a'.toNat := by omega
      have e2 : b.toNat = b'.toNat := by omega
      rw [UInt8.ext_iff.mpr e1, UInt8.ext_iff.mpr e2]
    | _ :: _ :: _ :: rest' =>
      simp only [sextets, List.cons.injEq] at h
      have := h.2.2.2
      cases rest' with
      | nil => simp at this
      | cons x xs => simp at this
  | case4 a b c rest ih =>
    match l2 with
    | [] => simp [sextets] at h
    | [_] => simp [sextets] at h
    | [_, _] =>
      simp only [sextets, List.cons.injEq] at h
      have := h.2.2.2
      simp at this
    | a' :: b' :: c' :: rest' =>
      simp only [sextets, List.cons.injEq] at h
      have ha := UInt8.toNat_lt_size a
      have ha' := UInt8.toNat_lt_size a'
      have hb := UInt8.toNat_lt_size b
      have hb' := UInt8.toNat_lt_size b'
      have hc := UInt8.toNat_lt_size c
      have hc' := UInt8.toNat_lt_size c'
      simp only [UInt8.size] at ha ha' hb hb' hc hc'
      have e1 : a.toNat = a'.toNat := by omega
      have e2 : b.toNat = b'.toNat := by omega
      have e3 : c.toNat = c'.toNat := by omega
      rw [UInt8.ext_iff.mpr e1, UInt8.ext_iff.mpr e2, UInt8.ext_iff.mpr e3, ih rest' h.2.2.2.2]

theorem EncodeToString_injective (p q : List UInt8) (h : EncodeToString p = EncodeToString q) :
    p = q :=
  sextets_injective p q (map_encodeChar_injective _ _ (sextets_lt p) (sextets_lt q) h)

theorem EncodeToString_no_at (p : List UInt8) : (64 : UInt8) ∉ EncodeToString p := by
  intro h
  obtain ⟨x, hx, hxe⟩ := List.mem_map.1 h
  exact encodeChar_ne_at x (sextets_lt p x hx) hxe

theorem append_separator_injective {x : UInt8} (l1 l2 r1 r2 : List UInt8) (h1 : x ∉ l1)
    (h2 : x ∉ l2) (h : l1 ++ x :: r1 = l2 ++ x :: r2) : l1 = l2 ∧ r1 = r2 := by
  induction l1 generalizing l2 with
  | nil =>
    cases l2 with
    | nil => simpa using h
    | cons y ys =>
      simp only [List.nil_append, List.cons_append, List.cons.injEq] at h
      exact absurd (h.1 ▸ List.mem_cons_self _ _) h2
  | cons y ys ih =>
    cases l2 with
    | nil =>
      simp only [List.nil_append, List.cons_append, List.cons.injEq] at h
      exact absurd (h.1 ▸ List.mem_cons_self _ _) h1
    | cons z zs =>
      simp only [List.cons_append, List.cons.injEq] at h
      obtain ⟨e1, e2⟩ := ih zs (fun hm => h1 (List.mem_cons_of_mem _ hm))
        (fun hm => h2 (List.mem_cons_of_mem _ hm)) h.2
      exact ⟨by rw [h.1, e1], e2⟩

/-- C17: `Fingerprint` is the unpadded base64url encoding of the public key,
then `@` (byte 64), then the service id; two identities with the same
fingerprint have the same public key and the same service id, whatever the
lengths and whatever bytes the service ids contain. -/
theorem Fingerprint_is_injective (i j : Internal.Identity)
    (h : i.Fingerprint = j.Fingerprint) :
    i.Fingerprint = EncodeToString i.Pub ++ [64] ++ i.ServiceID
      ∧ i.Pub = j.Pub ∧ i.ServiceID = j.ServiceID := by
  have hat : bytesOf "@" = [64] := by decide
  have hi : i.Fingerprint = EncodeToString i.Pub ++ 64 :: i.ServiceID := by
    simp [Internal.Identity.Fingerprint, Internal.Identity.B64PubKey, hat]
  have hj : j.Fingerprint = EncodeToString j.Pub ++ 64 :: j.ServiceID := by
    simp [Internal.Identity.Fingerprint, Internal.Identity.B64PubKey, hat]
  rw [hi, hj] at h
  obtain ⟨e1, e2⟩ := append_separator_injective _ _ _ _ (EncodeToString_no_at i.Pub)
    (EncodeToString_no_at j.Pub) h
  exact ⟨by rw [hi]; simp, EncodeToString_injective _ _ e1, e2⟩

/-- C17, on an identity whose service id contains `@`. -/
theorem Fingerprint_is_injective_witness :
    Internal.Identity.Fingerprint
        { ServiceID := bytesOf "a@b", Pub := bytesOf "Man", Priv := [] }
      = bytesOf "TWFu@a@b" :=
  ((Fingerprint_is_injective { ServiceID := bytesOf "a@b", Pub := bytesOf "Man", Priv := [] }
    { ServiceID := bytesOf "a@b", Pub := bytesOf "Man", Priv := [1] } (by decide)).1).trans
    (by decide)

/-! ### Injectivity of the digest -/

/-- C20, as stated, fails: the message of sender `ab` at second 0 with
content `hi` and the message of sender `a` at second 98 (`b` is byte 98) with
content `\0hi`, both of type text, differ in sender, time and content and
have the same digest. -/
theorem digest_collision_across_sender_lengths :
    (bytesOf "ab" ≠ bytesOf "a" ∧ Time.Unix 0 ≠ Time.Unix 98000000000
        ∧ bytesOf "hi" ≠ 0 :: bytesOf "hi")
      ∧ Internal.Message.digestBytes
          { Sender := bytesOf "ab", Time := 0, Typ := Internal.MTYPE_TEXT,
            Content := bytesOf "hi", Signature := none }
        = Internal.Message.digestBytes
          { Sender := bytesOf "a", Time := 98000000000, Typ := Internal.MTYPE_TEXT,
            Content := 0 :: bytesOf "hi", Signature := none } := by
  decide

/-- C20, amended: two messages whose senders have the same length and whose
digests are equal have the same sender, the same Unix seconds, the same type
and the same content. -/
theorem digest_injective_for_equal_sender_length (m1 m2 : Internal.Message)
    (hlen : m1.Sender.length = m2.Sender.length)
    (h : m1.digestBytes = m2.digestBytes) :
    m1.Sender = m2.Sender ∧ m1.Time.Unix = m2.Time.Unix ∧ m1.Typ = m2.Typ
      ∧ m1.Content = m2.Content := by
  simp only [Internal.Message.digestBytes, List.append_assoc] at h
  obtain ⟨hs, h⟩ := List.append_inj h hlen
  obtain ⟨ht, h⟩ := List.append_inj h
    (by rw [int64ToBytes_length, int64ToBytes_length])
  simp only [List.singleton_append, List.cons.injEq] at h
  refine ⟨hs, ?_, h.1, h.2⟩
  have r1 := toInt64_range (m1.Time / 1000000000)
  have r2 := toInt64_range (m2.Time / 1000000000)
  have v1 := int64ToBytes_value m1.Time.Unix r1.1 r1.2
  have v2 := int64ToBytes_value m2.Time.Unix r2.1 r2.2
  rw [← v1, ← v2, ht]

/-- C20 amended, on two messages of the sender `ab`. -/
theorem digest_injective_for_equal_sender_length_witness :
    Time.Unix 1500000000 = Time.Unix 1000000000 :=
  (digest_injective_for_equal_sender_length
    { Sender := bytesOf "ab", Time := 1500000000, Typ := Internal.MTYPE_TEXT,
      Content := bytesOf "hi", Signature := none }
    { Sender := bytesOf "ab", Time := 1000000000, Typ := Internal.MTYPE_TEXT,
      Content := bytesOf "hi", Signature := some [] }
    (by decide) (by decide)).2.1

/-! ### The sync client -/

theorem ConnM.run_bind {α β : Type} (x : ConnM α) (f : α → ConnM β) (c : Conn) :
    (x >>= f).run c
      = match x.run c with
        | (.error e, c') => (.error e, c')
        | (.ok a, c') => (f a).run c' := rfl

theorem ConnM.run_pure {α : Type} (a : α) (c : Conn) :
    (pure a : ConnM α).run c = (.ok a, c) := rfl

theorem stopsAtFailure_pure {α : Type} (a : α) : stopsAtFailure (pure a : ConnM α) := by
  intro c
  exact ⟨[], by simp [ConnM.run_pure], by simp, by simp⟩

theorem stopsAtFailure_lift {α : Type} (r : Except GoString α) :
    stopsAtFailure (ConnM.lift r) := by
  intro c
  exact ⟨[], by simp [ConnM.lift, ConnM.run, ConnM.mk], by simp, by simp⟩

theorem stopsAtFailure_write (s : Sent) : stopsAtFailure (Conn.write s) := by
  intro c
  exact ⟨[Event.wrote s], rfl, by simp [Event.failing], by simp⟩

theorem stopsAtFailure_bind {α β : Type} (x : ConnM α) (f : α → ConnM β)
    (hx : stopsAtFailure x) (hf : ∀ a, stopsAtFailure (f a)) : stopsAtFailure (x >>= f) := by
  intro c
  obtain ⟨added1, ht1, hok1, hlast1⟩ := hx c
  rw [ConnM.run_bind]
  rcases hxc : x.run c with ⟨r, c1⟩
  rw [hxc] at ht1 hok1
  cases r with
  | error e =>
    refine ⟨added1, ht1, ?_, hlast1⟩
    intro a ha
    cases ha
  | ok a =>
    obtain ⟨added2, ht2, hok2, hlast2⟩ := hf a c1
    have hgood1 := hok1 a rfl
    refine ⟨added1 ++ added2, ?_, ?_, ?_⟩
    · show ((f a).run c1).2.trace = c.trace ++ (added1 ++ added2)
      rw [ht2]
      simp only at ht1
      rw [ht1, List.append_assoc]
    · intro b hb e he
      rcases List.mem_append.1 he with h | h
      · exact hgood1 e h
      · exact hok2 b hb e h
    · intro e he
      by_cases hnil : added2 = []
      · subst hnil
        rw [List.append_nil] at he
        exact hgood1 e (List.mem_of_mem_dropLast he)
      · rw [List.dropLast_append_of_ne_nil added1 hnil] at he
        rcases List.mem_append.1 he with h | h
        · exact hgood1 e h
        · exact hlast2 e h

theorem stopsAtFailure_read (event : GoString → Event)
    (hev : ∀ f, Event.failing (event f) = false) : stopsAtFailure (Conn.read event) := by
  intro c
  cases hc : c.incoming with
  | nil =>
    refine ⟨[Event.readFailed], by simp [Conn.read, ConnM.run, ConnM.mk, hc], ?_, by simp⟩
    intro a ha
    simp [Conn.read, ConnM.run, ConnM.mk, hc] at ha
  | cons f rest =>
    refine ⟨[event f], by simp [Conn.read, ConnM.run, ConnM.mk, hc], ?_, by simp⟩
    intro a _ e he
    rw [List.mem_singleton.1 he]
    exact hev f

theorem expectResponse_run (expResp : GoString) (c : Conn) :
    (expectResponse expResp).run c
      = match c.incoming with
        | [] => (.error (bytesOf "EOF"), { c with trace := c.trace ++ [Event.readFailed] })
        | resp :: rest =>
          if resp ≠ expResp then
            (.error (bytesOf "received response \"" ++ resp ++ bytesOf "\" wanted \""
                ++ expResp ++ bytesOf "\""),
              { incoming := rest, trace := c.trace ++ [Event.reply expResp resp] })
          else (.ok (), { incoming := rest, trace := c.trace ++ [Event.reply expResp resp] }) := by
  unfold expectResponse
  rw [ConnM.run_bind]
  cases hc : c.incoming with
  | nil => simp [Conn.read, ConnM.run, ConnM.mk, hc]
  | cons resp rest =>
    by_cases h : resp = expResp
    · simp [Conn.read, ConnM.run, ConnM.mk, hc, h, pure]
    · simp [Conn.read, ConnM.run, ConnM.mk, hc, h, ConnM.lift]

theorem stopsAtFailure_expectResponse (expResp : GoString) :
    stopsAtFailure (expectResponse expResp) := by
  intro c
  rw [expectResponse_run]
  cases hc : c.incoming with
  | nil =>
    refine ⟨[Event.readFailed], rfl, ?_, by simp⟩
    intro a ha
    cases ha
  | cons resp rest =>
    by_cases h : resp = expResp
    · refine ⟨[Event.reply expResp resp], by simp [h], ?_, by simp⟩
      intro a _ e he
      rw [List.mem_singleton.1 he]
      simp [Event.failing, h]
    · refine ⟨[Event.reply expResp resp], by simp [h], ?_, by simp⟩
      intro a ha
      simp [h] at ha

theorem stopsAtFailure_sendBlocks (env : SyncEnv) (count : Nat) (file : GoString) :
    stopsAtFailure (sendBlocks env count file) := by
  induction count generalizing file with
  | zero => exact stopsAtFailure_pure ()
  | succ n ih =>
    unfold sendBlocks
    apply stopsAtFailure_bind _ _ (stopsAtFailure_lift _)
    rintro ⟨block, rest⟩
    apply stopsAtFailure_bind _ _ (stopsAtFailure_write _)
    intro _
    apply stopsAtFailure_bind _ _ (stopsAtFailure_expectResponse _)
    intro _
    exact ih rest

theorem stopsAtFailure_WriteInt (env : SyncEnv) (n : Int) :
    stopsAtFailure (Conn.WriteInt env n) := by
  unfold Conn.WriteInt
  apply stopsAtFailure_bind _ _ (stopsAtFailure_write _)
  intro _
  cases env.WriteIntErr n with
  | none => exact stopsAtFailure_pure ()
  | some err => exact stopsAtFailure_lift _

theorem stopsAtFailure_sendBlob (env : SyncEnv) (id : UUID) :
    stopsAtFailure (sendBlob env id) := by
  unfold sendBlob
  apply stopsAtFailure_bind _ _ (stopsAtFailure_lift _)
  intro size
  apply stopsAtFailure_bind _ _ (stopsAtFailure_WriteInt _ _)
  intro _
  apply stopsAtFailure_bind _ _ (stopsAtFailure_lift _)
  intro file
  apply stopsAtFailure_bind _ _ (stopsAtFailure_sendBlocks _ _ _)
  intro _
  exact stopsAtFailure_expectResponse _

theorem stopsAtFailure_sendBlobsLoop (env : SyncEnv) (ids : List UUID) :
    stopsAtFailure (sendBlobsLoop env ids) := by
  induction ids with
  | nil => exact stopsAtFailure_pure ()
  | cons id ids ih =>
    unfold sendBlobsLoop
    exact stopsAtFailure_bind _ _ (stopsAtFailure_sendBlob env id) (fun _ => ih)

theorem stopsAtFailure_sendBlobs (env : SyncEnv) (ids : List UUID) :
    stopsAtFailure (sendBlobs env ids) := by
  unfold sendBlobs
  exact stopsAtFailure_bind _ _ (stopsAtFailure_write _)
    (fun _ => stopsAtFailure_sendBlobsLoop env ids)

theorem stopsAtFailure_syncOnConn (env : SyncEnv) (room : Room) :
    stopsAtFailure (syncOnConn env room) := by
  unfold syncOnConn fingerprintChallenge Conn.ReadStruct Conn.ReadBytes
  apply stopsAtFailure_bind
  · apply stopsAtFailure_bind _ _ (stopsAtFailure_read Event.readBytes (fun _ => rfl))
    intro challenge
    apply stopsAtFailure_bind _ _ (stopsAtFailure_write _)
    intro _
    exact stopsAtFailure_write _
  intro _
  apply stopsAtFailure_bind _ _ (stopsAtFailure_write _)
  intro _
  apply stopsAtFailure_bind _ _ (stopsAtFailure_expectResponse _)
  intro _
  apply stopsAtFailure_bind
  · apply stopsAtFailure_bind _ _ (stopsAtFailure_read Event.readStruct (fun _ => rfl))
    intro frame
    exact stopsAtFailure_lift _
  intro remoteSyncTimes
  apply stopsAtFailure_bind _ _ (stopsAtFailure_write _)
  intro _
  apply stopsAtFailure_bind _ _ (stopsAtFailure_expectResponse _)
  intro _
  apply stopsAtFailure_bind _ _ (stopsAtFailure_sendBlobs _ _)
  intro _
  exact stopsAtFailure_expectResponse _

theorem ConnM.bind_ok {α β : Type} (x : ConnM α) (f : α → ConnM β) (c c' : Conn) (b : β)
    (h : (x >>= f).run c = (.ok b, c')) :
    ∃ a c1, x.run c = (.ok a, c1) ∧ (f a).run c1 = (.ok b, c') := by
  rw [ConnM.run_bind] at h
  rcases hxc : x.run c with ⟨r, c1⟩
  rw [hxc] at h
  cases r with
  | error e => simp at h
  | ok a => exact ⟨a, c1, rfl, h⟩

theorem repliesOf_append (t1 t2 : List Event) :
    repliesOf (t1 ++ t2) = repliesOf t1 ++ repliesOf t2 := by
  simp [repliesOf, List.filterMap_append]

theorem write_ok (s : Sent) (c c' : Conn) (h : (Conn.write s).run c = (.ok (), c')) :
    repliesOf c'.trace = repliesOf c.trace := by
  simp only [Conn.write, ConnM.run, ConnM.mk, Prod.mk.injEq, true_and] at h
  rw [← h]
  simp [repliesOf_append, repliesOf]

theorem lift_ok {α : Type} (r : Except GoString α) (c c' : Conn) (a : α)
    (h : (ConnM.lift r).run c = (.ok a, c')) : r = .ok a ∧ c' = c := by
  simp only [ConnM.lift, ConnM.run, ConnM.mk, Prod.mk.injEq] at h
  exact ⟨h.1, h.2.symm⟩

theorem pure_ok {α : Type} (a b : α) (c c' : Conn)
    (h : (pure a : ConnM α).run c = (.ok b, c')) : c' = c := by
  rw [ConnM.run_pure] at h
  simp only [Prod.mk.injEq] at h
  exact h.2.symm

theorem read_ok (event : GoString → Event) (hev : ∀ f, repliesOf [event f] = [])
    (c c' : Conn) (f : GoString) (h : (Conn.read event).run c = (.ok f, c')) :
    repliesOf c'.trace = repliesOf c.trace := by
  cases hc : c.incoming with
  | nil => simp [Conn.read, ConnM.run, ConnM.mk, hc] at h
  | cons g rest =>
    simp only [Conn.read, ConnM.run, ConnM.mk, hc, Prod.mk.injEq, Except.ok.injEq] at h
    rw [← h.2]
    simp [repliesOf_append, hev]

theorem expectResponse_ok (expResp : GoString) (c c' : Conn)
    (h : (expectResponse expResp).run c = (.ok (), c')) :
    repliesOf c'.trace = repliesOf c.trace ++ [expResp] := by
  rw [expectResponse_run] at h
  cases hc : c.incoming with
  | nil => simp [hc] at h
  | cons resp rest =>
    by_cases hr : resp = expResp
    · simp only [hc, hr, ne_eq, not_true_eq_false, if_false, Prod.mk.injEq, true_and] at h
      rw [← h]
      simp [repliesOf_append, repliesOf]
    · simp [hc, hr] at h

theorem sendBlocks_ok (env : SyncEnv) (count : Nat) (file : GoString) (c c' : Conn)
    (h : (sendBlocks env count file).run c = (.ok (), c')) :
    repliesOf c'.trace = repliesOf c.trace ++ List.replicate count (bytesOf "block_ok") := by
  induction count generalizing file c with
  | zero =>
    rw [pure_ok () () c c' h]
    simp
  | succ n ih =>
    unfold sendBlocks at h
    obtain ⟨⟨block, rest⟩, c1, h1, h⟩ := ConnM.bind_ok _ _ _ _ _ h
    obtain ⟨_, e1⟩ := lift_ok _ _ _ _ h1
    obtain ⟨_, c2, h2, h⟩ := ConnM.bind_ok _ _ _ _ _ h
    obtain ⟨_, c3, h3, h⟩ := ConnM.bind_ok _ _ _ _ _ h
    rw [ih rest c3 h, expectResponse_ok _ _ _ h3, write_ok _ _ _ h2, e1, List.append_assoc]
    rfl

theorem WriteInt_ok (env : SyncEnv) (n : Int) (c c' : Conn)
    (h : (Conn.WriteInt env n).run c = (.ok (), c')) :
    repliesOf c'.trace = repliesOf c.trace := by
  unfold Conn.WriteInt at h
  obtain ⟨_, c1, h1, h⟩ := ConnM.bind_ok _ _ _ _ _ h
  cases hw : env.WriteIntErr n with
  | none =>
    rw [hw] at h
    rw [pure_ok () () c1 c' h, write_ok _ _ _ h1]
  | some err =>
    rw [hw] at h
    obtain ⟨e, _⟩ := lift_ok _ _ _ _ h
    cases e

theorem sendBlob_ok (env : SyncEnv) (id : UUID) (c c' : Conn)
    (h : (sendBlob env id).run c = (.ok (), c')) :
    repliesOf c'.trace = repliesOf c.trace ++ blobAcks env id := by
  unfold sendBlob at h
  obtain ⟨size, c1, h1, h⟩ := ConnM.bind_ok _ _ _ _ _ h
  obtain ⟨hstat, e1⟩ := lift_ok _ _ _ _ h1
  obtain ⟨_, c2, h2, h⟩ := ConnM.bind_ok _ _ _ _ _ h
  obtain ⟨file, c3, h3, h⟩ := ConnM.bind_ok _ _ _ _ _ h
  obtain ⟨_, e3⟩ := lift_ok _ _ _ _ h3
  obtain ⟨_, c4, h4, h⟩ := ConnM.bind_ok _ _ _ _ _ h
  rw [expectResponse_ok _ _ _ h, sendBlocks_ok _ _ _ _ _ h4, e3, WriteInt_ok _ _ _ _ h2, e1]
  simp [blobAcks, hstat]

theorem sendBlobsLoop_ok (env : SyncEnv) (ids : List UUID) (c c' : Conn)
    (h : (sendBlobsLoop env ids).run c = (.ok (), c')) :
    repliesOf c'.trace = repliesOf c.trace ++ ids.flatMap (blobAcks env) := by
  induction ids generalizing c with
  | nil =>
    rw [pure_ok () () c c' h]
    simp
  | cons id ids ih =>
    unfold sendBlobsLoop at h
    obtain ⟨_, c1, h1, h⟩ := ConnM.bind_ok _ _ _ _ _ h
    rw [ih c1 h, sendBlob_ok _ _ _ _ h1]
    simp

theorem syncOnConn_ok (env : SyncEnv) (room : Room) (c c' : Conn)
    (h : (syncOnConn env room).run c = (.ok (), c')) :
    ∃ frame remoteSyncTimes, env.decodeSyncTimes frame = .ok remoteSyncTimes
      ∧ repliesOf c'.trace
        = repliesOf c.trace ++ [bytesOf "auth_ok", bytesOf "messages_ok"]
          ++ (blobIDsFromMessages env (findMessagesToSync room remoteSyncTimes)).flatMap
              (blobAcks env)
          ++ [bytesOf "sync_ok"] := by
  unfold syncOnConn fingerprintChallenge Conn.ReadStruct Conn.ReadBytes sendBlobs at h
  obtain ⟨_, c1, h1, h⟩ := ConnM.bind_ok _ _ _ _ _ h
  obtain ⟨challenge, c1a, h1a, h1⟩ := ConnM.bind_ok _ _ _ _ _ h1
  obtain ⟨_, c1b, h1b, h1⟩ := ConnM.bind_ok _ _ _ _ _ h1
  obtain ⟨_, c2, h2, h⟩ := ConnM.bind_ok _ _ _ _ _ h
  obtain ⟨_, c3, h3, h⟩ := ConnM.bind_ok _ _ _ _ _ h
  obtain ⟨remote, c4, h4, h⟩ := ConnM.bind_ok _ _ _ _ _ h
  obtain ⟨frame, c4a, h4a, h4⟩ := ConnM.bind_ok _ _ _ _ _ h4
  obtain ⟨hdec, e4⟩ := lift_ok _ _ _ _ h4
  obtain ⟨_, c5, h5, h⟩ := ConnM.bind_ok _ _ _ _ _ h
  obtain ⟨_, c6, h6, h⟩ := ConnM.bind_ok _ _ _ _ _ h
  obtain ⟨_, c7, h7, h⟩ := ConnM.bind_ok _ _ _ _ _ h
  obtain ⟨_, c7a, h7a, h7⟩ := ConnM.bind_ok _ _ _ _ _ h7
  refine ⟨frame, remote, hdec, ?_⟩
  rw [expectResponse_ok _ _ _ h, sendBlobsLoop_ok _ _ _ _ h7, write_ok _ _ _ h7a,
    expectResponse_ok _ _ _ h6, write_ok _ _ _ h5, e4,
    read_ok Event.readStruct (fun _ => rfl) _ _ _ h4a, expectResponse_ok _ _ _ h3,
    write_ok _ _ _ h2, write_ok _ _ _ h1, write_ok _ _ _ h1b,
    read_ok Event.readBytes (fun _ => rfl) _ _ _ h1a]
  simp

theorem mem_dropLast_of_not_last {α : Type} (pre post : List α) (e : α) (h : post ≠ []) :
    e ∈ (pre ++ e :: post).dropLast := by
  rw [List.dropLast_append_cons, List.dropLast_cons_of_ne_nil h]
  simp

/-- C18: when `syncMsgs` returns no error, a connection was opened, a frame
decoded to the remote sync times, and the strings `expectResponse` read on
it are, in order, `auth_ok`, `messages_ok`, then for each blob id of the
messages to sync `block_ok` once per block and `blob_ok`, then `sync_ok`.
`expectResponse` fails when no frame is left, and on a frame it succeeds
exactly when the string read is the expected literal. Whatever the server
sends, `syncMsgs` only appends to the trace of the connection, and an event
of a failed read or of a reply other than the expected literal is the last
event of the trace, the call returning an error. -/
theorem sync_accepts_only_exact_acknowledgements (env : SyncEnv) (mp : MessagingPeer)
    (room : Room) :
    ((syncMsgs env mp (some room)).1 = none →
        ∃ conn frame remoteSyncTimes,
          env.GetConnFunc mp = .ok conn
            ∧ env.decodeSyncTimes frame = .ok remoteSyncTimes
            ∧ repliesOf (syncMsgs env mp (some room)).2.trace
              = repliesOf conn.trace ++ [bytesOf "auth_ok", bytesOf "messages_ok"]
                ++ (blobIDsFromMessages env
                      (findMessagesToSync room remoteSyncTimes)).flatMap (blobAcks env)
                ++ [bytesOf "sync_ok"])
      ∧ (∀ (expResp : GoString) (c : Conn), c.incoming = [] →
          ∃ err, ((expectResponse expResp).run c).1 = .error err)
      ∧ (∀ (expResp : GoString) (c : Conn) (resp : GoString) (rest : List GoString),
          c.incoming = resp :: rest →
          (((expectResponse expResp).run c).1 = .ok () ↔ resp = expResp))
      ∧ ∀ conn, env.GetConnFunc mp = .ok conn →
          ∃ added, (syncMsgs env mp (some room)).2.trace = conn.trace ++ added
            ∧ ∀ pre e post, added = pre ++ e :: post → Event.failing e = true →
                post = [] ∧ (syncMsgs env mp (some room)).1 ≠ none := by
  refine ⟨?_, ?_, ?_, ?_⟩
  · intro hok
    cases hconn : env.GetConnFunc mp with
    | error err => simp [syncMsgs, hconn] at hok
    | ok conn =>
      rcases hrun : (syncOnConn env room).run conn with ⟨r, c'⟩
      cases r with
      | error err => simp [syncMsgs, hconn, hrun] at hok
      | ok u =>
        obtain ⟨frame, remote, hdec, hrep⟩ := syncOnConn_ok env room conn c' hrun
        refine ⟨conn, frame, remote, rfl, hdec, ?_⟩
        simp only [syncMsgs, hconn, hrun]
        exact hrep
  · intro expResp c hc
    rw [expectResponse_run, hc]
    exact ⟨_, rfl⟩
  · intro expResp c resp rest hc
    rw [expectResponse_run, hc]
    by_cases h : resp = expResp
    · simp [h]
    · simp [h]
  · intro conn hconn
    obtain ⟨added, htrace, hgood, hlast⟩ := stopsAtFailure_syncOnConn env room conn
    rcases hrun : (syncOnConn env room).run conn with ⟨r, c'⟩
    rw [hrun] at htrace hgood
    have hres : (syncMsgs env mp (some room)).2 = c' := by
      cases r <;> simp [syncMsgs, hconn, hrun]
    refine ⟨added, by rw [hres]; exact htrace, ?_⟩
    intro pre e post hadd hfail
    have hpost : post = [] := by
      by_contra hne
      have hmem := mem_dropLast_of_not_last pre post e hne
      rw [← hadd] at hmem
      rw [hlast e hmem] at hfail
      cases hfail
    refine ⟨hpost, ?_⟩
    cases r with
    | error err => simp [syncMsgs, hconn, hrun]
    | ok u =>
      have hmem : e ∈ added := by rw [hadd]; simp
      rw [hgood u rfl e hmem] at hfail
      cases hfail

/-- C18, on the example room and blob store: a server that answers the
second block with `nope` makes the call fail there, the later frames left
unread and nothing more written; with the exact literals the call succeeds
and the replies read are the expected sequence. -/
theorem sync_accepts_only_exact_acknowledgements_witness :
    syncMsgs (exampleSyncEnv (exampleFrames "nope")) (examplePeer "bob" false) (some exampleRoom)
      = (some (bytesOf "received response \"nope\" wanted \"block_ok\""),
          { incoming := [bytesOf "block_ok", bytesOf "blob_ok", bytesOf "sync_ok"],
            trace := [Event.readBytes (bytesOf "ch"), Event.wrote (Sent.Str (bytesOf "me")),
              Event.wrote (Sent.Bytes (bytesOf "ch")), Event.wrote (Sent.Bytes []),
              Event.reply (bytesOf "auth_ok") (bytesOf "auth_ok"), Event.readStruct [],
              Event.wrote (Sent.Messages exampleRoom.Messages),
              Event.reply (bytesOf "messages_ok") (bytesOf "messages_ok"),
              Event.wrote (Sent.BlobIDs [[7]]), Event.wrote (Sent.Int 3),
              Event.wrote (Sent.Bytes [1, 2]),
              Event.reply (bytesOf "block_ok") (bytesOf "block_ok"),
              Event.wrote (Sent.Bytes [3, 4]),
              Event.reply (bytesOf "block_ok") (bytesOf "nope")] })
      ∧ (syncMsgs (exampleSyncEnv (exampleFrames "block_ok")) (examplePeer "bob" false)
          (some exampleRoom)).1 = none
      ∧ repliesOf (syncMsgs (exampleSyncEnv (exampleFrames "block_ok"))
          (examplePeer "bob" false) (some exampleRoom)).2.trace
        = [bytesOf "auth_ok", bytesOf "messages_ok", bytesOf "block_ok", bytesOf "block_ok",
            bytesOf "block_ok", bytesOf "blob_ok", bytesOf "sync_ok"]
      ∧ ∃ conn frame remoteSyncTimes,
          (exampleSyncEnv (exampleFrames "block_ok")).GetConnFunc (examplePeer "bob" false)
              = .ok conn
            ∧ (exampleSyncEnv (exampleFrames "block_ok")).decodeSyncTimes frame
              = .ok remoteSyncTimes
            ∧ repliesOf (syncMsgs (exampleSyncEnv (exampleFrames "block_ok"))
                (examplePeer "bob" false) (some exampleRoom)).2.trace
              = repliesOf conn.trace ++ [bytesOf "auth_ok", bytesOf "messages_ok"]
                ++ (blobIDsFromMessages (exampleSyncEnv (exampleFrames "block_ok"))
                      (findMessagesToSync exampleRoom remoteSyncTimes)).flatMap
                    (blobAcks (exampleSyncEnv (exampleFrames "block_ok")))
                ++ [bytesOf "sync_ok"] :=
  ⟨by decide, by decide, by decide,
    (sync_accepts_only_exact_acknowledgements (exampleSyncEnv (exampleFrames "block_ok"))
      (examplePeer "bob" false) exampleRoom).1 (by decide)⟩

/-! ### The block count -/

theorem blockCount_eq (s B : Int) (hs : 0 ≤ s) (hB : 0 < B) :
    blockCount s B = if s % B ≠ 0 then s / B + 1 else s / B := by
  unfold blockCount
  rw [Int.tmod_eq_emod hs (le_of_lt hB), Int.tdiv_eq_ediv hs (le_of_lt hB)]

theorem WriteInt_run (env : SyncEnv) (n : Int) (c : Conn) :
    (Conn.WriteInt env n).run c
      = (match env.WriteIntErr n with
          | some err => .error err
          | none => .ok (),
        { c with trace := c.trace ++ [Event.wrote (Sent.Int n)] }) := by
  unfold Conn.WriteInt
  rw [ConnM.run_bind]
  cases env.WriteIntErr n <;> rfl

theorem sendBlob_writes_blockCount (env : SyncEnv) (id : UUID) (size : Int) (c : Conn)
    (hstat : env.StatFromID id = .ok size) :
    ∃ rest, ((sendBlob env id).run c).2.trace
      = c.trace ++ Event.wrote (Sent.Int (blockCount size env.blocksize)) :: rest := by
  have hrest : stopsAtFailure (do
      let file ← ConnM.lift (env.FileFromID id)
      sendBlocks env (blockCount size env.blocksize).toNat file
      expectResponse (bytesOf "blob_ok")) := by
    apply stopsAtFailure_bind _ _ (stopsAtFailure_lift _)
    intro file
    apply stopsAtFailure_bind _ _ (stopsAtFailure_sendBlocks _ _ _)
    intro _
    exact stopsAtFailure_expectResponse _
  obtain ⟨added, hadd, _, _⟩ := hrest
    { c with trace := c.trace ++ [Event.wrote (Sent.Int (blockCount size env.blocksize))] }
  have h1 : (ConnM.lift (env.StatFromID id)).run c = (.ok size, c) := by
    rw [hstat]; rfl
  unfold sendBlob
  rw [ConnM.run_bind, h1]
  simp only []
  rw [ConnM.run_bind, WriteInt_run]
  cases hw : env.WriteIntErr (blockCount size env.blocksize) with
  | some err => exact ⟨[], by simp⟩
  | none =>
    refine ⟨added, ?_⟩
    simp only []
    rw [hadd]
    simp

/-- C19: for a blob size `s >= 0` and a block size `B > 0`, the block count
of `sendBlobs` is the least `n` with `n * B >= s`: it is 0 for the empty blob,
`s / B` when `B` divides `s` and `s / B + 1` otherwise; it is the integer
`sendBlobs` writes first for a blob whose `StatFromID` gives the size `s`. -/
theorem block_count_is_ceiling (s B : Int) (hs : 0 ≤ s) (hB : 0 < B) :
    s ≤ blockCount s B * B
      ∧ (∀ n : Int, s ≤ n * B → blockCount s B ≤ n)
      ∧ (s = 0 → blockCount s B = 0)
      ∧ (B ∣ s → blockCount s B = s / B)
      ∧ (¬ B ∣ s → blockCount s B = s / B + 1)
      ∧ ∀ (env : SyncEnv) (id : UUID) (c : Conn),
          env.blocksize = B → env.StatFromID id = .ok s →
          ∃ rest, ((sendBlob env id).run c).2.trace
            = c.trace ++ Event.wrote (Sent.Int (blockCount s B)) :: rest := by
  have hdiv := Int.emod_add_ediv s B
  have hr0 := Int.emod_nonneg s (ne_of_gt hB)
  have hrB := Int.emod_lt_of_pos s hB
  rw [blockCount_eq s B hs hB]
  refine ⟨?_, ?_, ?_, ?_, ?_, ?_⟩
  · split
    · nlinarith
    · rename_i he
      have h0 : s % B = 0 := not_not.mp he
      nlinarith
  · intro n hn
    split
    · rename_i hne
      have hlt : s / B * B < n * B := by
        have : 0 < s % B := lt_of_le_of_ne hr0 (Ne.symm hne)
        nlinarith
      have := lt_of_mul_lt_mul_right hlt (le_of_lt hB)
      omega
    · rename_i he
      have hle : s / B * B ≤ n * B := by
        have h0 : s % B = 0 := not_not.mp he
        nlinarith
      exact le_of_mul_le_mul_right hle hB
  · intro h0
    subst h0
    simp
  · intro hd
    have : s % B = 0 := Int.emod_eq_zero_of_dvd hd
    simp [this]
  · intro hd
    have : s % B ≠ 0 := fun h => hd (Int.dvd_of_emod_eq_zero h)
    simp [this]
  · intro env id c hB' hstat
    rw [← blockCount_eq s B hs hB, ← hB']
    exact sendBlob_writes_blockCount env id s c hstat

/-- C19, on a blob of 5 bytes with blocks of 2: 3 blocks are announced. -/
theorem block_count_is_ceiling_witness :
    (5 : Int) ≤ blockCount 5 2 * 2 ∧ blockCount 5 2 = 3 ∧ blockCount 4 2 = 2
      ∧ blockCount 0 2 = 0 ∧ blockCount 4096 4096 = 1 ∧ blockCount 4097 4096 = 2 :=
  ⟨(block_count_is_ceiling 5 2 (by decide) (by decide)).1, by decide, by decide, by decide,
    by decide, by decide⟩

end Tormsg
